import Mathlib

/-!
Shallow embedding of the lobby turn-state machine of `src/game/lobby.go`
(package `game` of scribble.rs), together with theorems checking the
natural-language specification against it.

Modelling conventions:
* Go pointers to `Player` objects are represented by the player's opaque
  `ID`; pointer comparisons such as `lobby.Drawer == player` become
  identifier comparisons.  Theorems that depend on this carry a
  `Nodup`-of-ids hypothesis, which holds in the real system because ids
  are freshly generated.
* Go's `int`/`int64` arithmetic is modelled by `Int` (no claim comes
  near an overflow boundary); Go's truncating integer division is
  `Int.tdiv`.
* Go maps used as sets (`votedForKick map[string]bool`) are modelled by
  duplicate-free `List String` of the keys that are set to `true`.
* Side effects on the network (`WriteAsJSON`, broadcast hooks) are
  modelled by a returned list of outbound events `Out`.
* Calls into external packages (`rand`, `GetRandomWords`,
  `GeneratePlayerName`, `discordemojimap.Replace`, `time.Now`) are
  modelled as explicit parameters of the transition functions.
* A Go runtime panic (out-of-range index and the like) is modelled by
  `Option.none`.
-/

/-- Player state: `Drawing`, `Standby` or `Guessing` (lobby.go uses an
enumeration with exactly these three values). -/
inductive PlayerState where
  | Drawing
  | Standby
  | Guessing
deriving DecidableEq

/-- One character slot of a word hint (`WordHint` in the Go source):
`character` is the rune (the Go zero value `0` means "still hidden") and
`underline` tells whether the slot is underlined. -/
structure WordHint where
  character : Char
  underline : Bool
deriving DecidableEq

/-- The Go rune zero value, used by lobby.go as the "hidden" marker in
the player-facing hint array. -/
def hiddenChar : Char := Char.ofNat 0

/-- One participant (`Player` in the Go source).  The display name is a
byte sequence because `commandNick` can truncate it in the middle of a
UTF-8 character. -/
structure Player where
  id : String
  name : List UInt8
  score : Int
  lastScore : Int
  rank : Nat
  state : PlayerState
  connected : Bool
  votedForKick : List String
deriving DecidableEq

/-- One game instance (`Lobby` in the Go source); only the fields the
core state machine reads or writes are modelled.  `drawer` and `owner`
hold the id of the referenced player (or `none`). -/
structure Lobby where
  players : List Player
  drawer : Option String
  owner : Option String
  round : Int
  maxRounds : Int
  drawingTime : Int
  currentWord : String
  wordChoice : List String
  wordHints : Option (List WordHint)
  wordHintsShown : Option (List WordHint)
  scoreEarnedByGuessers : Int
  alreadyUsedWords : List String
  roundEndTime : Int
  enableVotekick : Bool
  currentDrawing : List Unit
deriving DecidableEq

/-- Outbound event, standing in for the injected `WriteAsJSON` /
`WritePublicSystemMessage` / `Trigger...` hooks.  Unicast events carry
the id of the target player. -/
inductive Out where
  | system (target : String) (text : String)
  | publicSystem (text : String)
  | chat (author : List UInt8) (content : String)
  | nonGuessingChat (author : List UInt8) (content : String)
  | updateWordHintTo (target : String)
  | updateWordHintAll
  | updatePlayers
  | correctGuess
  | nextTurn
  | promptWords (target : String)
  | yourTurn (target : String)
  | resetUsername (target : String)
  | persistUsername (target : String) (name : List UInt8)
  | voteKickTally (count : Nat) (needed : Nat) (target : String)
  | playerKicked (target : String)
  | drawerKickedNotice
  | newOwner (target : String)
deriving DecidableEq

/-! ### String helpers (Go `strings`, `html` and UTF-8 byte model) -/

/-- UTF-8 encoding of one character, byte by byte (what Go's `len` and
string slicing operate on). -/
def utf8Bytes (c : Char) : List UInt8 :=
  let n := c.toNat
  if n < 128 then [UInt8.ofNat n]
  else if n < 2048 then
    [UInt8.ofNat (192 + n / 64), UInt8.ofNat (128 + n % 64)]
  else if n < 65536 then
    [UInt8.ofNat (224 + n / 4096), UInt8.ofNat (128 + n / 64 % 64),
     UInt8.ofNat (128 + n % 64)]
  else
    [UInt8.ofNat (240 + n / 262144), UInt8.ofNat (128 + n / 4096 % 64),
     UInt8.ofNat (128 + n / 64 % 64), UInt8.ofNat (128 + n % 64)]

/-- The UTF-8 bytes of a string (Go strings are byte sequences; `len`
on a Go string counts these bytes). -/
def strBytes (s : String) : List UInt8 :=
  (s.data.map utf8Bytes).flatten

/-- Go `html.EscapeString`, character-wise: the five escaped characters
are ASCII, so rune-wise and byte-wise escaping agree. -/
def escapeChar (c : Char) : List Char :=
  if c = '&' then "&amp;".data
  else if c = '\'' then "&#39;".data
  else if c = '<' then "&lt;".data
  else if c = '>' then "&gt;".data
  else if c = '"' then "&#34;".data
  else [c]

/-- Go `html.EscapeString` on a string. -/
def escapeString (s : String) : String :=
  ⟨(s.data.map escapeChar).flatten⟩

/-- Go `html.EscapeString` applied to a raw byte string (used for the
author name, which can be invalid UTF-8 after a nick truncation); the
five escaped characters are single ASCII bytes. -/
def escapeByte (b : UInt8) : List UInt8 :=
  if b = 38 then strBytes "&amp;"
  else if b = 39 then strBytes "&#39;"
  else if b = 60 then strBytes "&lt;"
  else if b = 62 then strBytes "&gt;"
  else if b = 34 then strBytes "&#34;"
  else [b]

/-- Byte-wise `html.EscapeString`. -/
def escapeBytes (bs : List UInt8) : List UInt8 :=
  (bs.map escapeByte).flatten

/-- Go `strings.TrimSpace` (restricted to the ASCII whitespace that
occurs in the checked scenarios), defined structurally over the rune
list so that concrete runs reduce. -/
def trimSpace (s : String) : String :=
  ⟨((s.data.dropWhile Char.isWhitespace).reverse.dropWhile Char.isWhitespace).reverse⟩

/-- Go `strings.ToLower` (ASCII case folding; the checked scenarios use
ASCII words), defined structurally over the rune list. -/
def lowerString (s : String) : String :=
  ⟨s.data.map Char.toLower⟩

/-- Levenshtein edit distance on rune sequences, as computed by the
`agnivade/levenshtein` dependency.  Defined with explicit fuel; each
recursive call strictly decreases `xs.length + ys.length`, so with fuel
`xs.length + ys.length` the fallback branch is never reached. -/
def levFuel : Nat → List Char → List Char → Nat
  | _, [], ys => ys.length
  | _, xs, [] => xs.length
  | 0, xs, ys => xs.length + ys.length
  | fuel + 1, x :: xs, y :: ys =>
    if x = y then levFuel fuel xs ys
    else 1 + min (levFuel fuel xs ys)
               (min (levFuel fuel (x :: xs) ys) (levFuel fuel xs (y :: ys)))

/-- Levenshtein edit distance between two strings over runes. -/
def lev (xs ys : List Char) : Nat :=
  levFuel (xs.length + ys.length) xs ys

/-! ### Scoring -/

/-- Least `n` with `target ≤ n ^ 10`, found by a bounded upward scan
starting at `start` (the fuel makes the scan structural). -/
def leastPow10Ge (target : Nat) : Nat → Nat → Nat
  | 0, n => n
  | fuel + 1, n => if target ≤ n ^ 10 then n else leastPow10Ge target fuel (n + 1)

/-- Points for a correct guess, modelling
`int(math.Ceil(math.Pow(math.Max(float64(secondsLeft), 1), 1.3) * 2))`
from `handleMessage` with exact real arithmetic in place of `float64`:
for `s ≥ 1` and `n ≥ 0` we have `n ≥ 2 * s^(13/10)` iff
`n^10 ≥ 2^10 * s^13`, so the ceiling is the least `n` with
`1024 * s^13 ≤ n^10`.  That `n` is at most `2*s^2 + 1` (because
`s^(13/10) ≤ s^2` for `s ≥ 1`), so the scan bound `2*s*s + 2` is never
exhausted. -/
def scorePoints (secondsLeft : Int) : Nat :=
  let s : Nat := (max secondsLeft 1).toNat
  leastPow10Ge (1024 * s ^ 13) (2 * s * s + 2) 0

/-! ### Word hints -/

/-- `createWordHintFor` from lobby.go: one `WordHint` per rune of the
word; space, underscore and dash are not underlined; with
`showAll = false` every `character` is left at the hidden zero value. -/
def createWordHintFor (word : String) (showAll : Bool) : List WordHint :=
  word.data.map fun char =>
    let irrelevantChar := char = ' ' ∨ char = '_' ∨ char = '-'
    if showAll then
      { character := char, underline := ¬irrelevantChar }
    else
      { character := hiddenChar, underline := ¬irrelevantChar }

/-! ### Rank computation -/

/-- `recalculateRanks` from lobby.go: a player's rank is one plus the
number of players with strictly greater score. -/
def recalculateRanks (ps : List Player) : List Player :=
  ps.map fun a => { a with rank := (ps.filter fun b => a.score < b.score).length + 1 }

/-! ### Drawer selection and round advancement -/

/-- The second loop of `selectNextDrawer`: scan the player list from
the start; stop (returning the current drawer) as soon as the scanned
player is the current drawer; skip disconnected players; otherwise set
the drawer to the scanned player and keep scanning (the Go loop has no
`break` after the assignment, so later connected players overwrite
earlier ones). -/
def fallbackScan (d : Option String) : List Player → Option String
  | [] => d
  | p :: rest =>
    if some p.id = d then d
    else if ¬p.connected then fallbackScan d rest
    else fallbackScan (some p.id) rest

/-- `selectNextDrawer` from lobby.go: the first loop finds the current
drawer in the list and takes the player at the following index (a Go
index-out-of-range panic, i.e. `none`, when the drawer is the last
player); when the drawer is not in the list the fallback scan runs. -/
def selectNextDrawer (l : Lobby) : Option Lobby :=
  match l.players.findIdx? (fun p => some p.id = l.drawer) with
  | some i =>
    match l.players[i + 1]? with
    | some nxt => some { l with drawer := some nxt.id }
    | none => none
  | none => some { l with drawer := fallbackScan l.drawer l.players }

/-- Per-round reset applied to every player at the top of
`advanceLobby`: state back to `Guessing`, vote-kick ballots cleared. -/
def resetForNextRound (p : Player) : Player :=
  { p with state := PlayerState.Guessing, votedForKick := [] }

/-- Set the state of the player with the given id to `Drawing`
(`lobby.Drawer.State = Drawing` through the drawer pointer). -/
def setDrawerState (ps : List Player) (d : String) : List Player :=
  ps.map fun p => if p.id = d then { p with state := PlayerState.Drawing } else p

/-- Tail of `advanceLobby` after the drawer has been chosen: mark the
drawer as drawing, hand the drawer the three candidate words, set the
round end time to `now + DrawingTime` seconds (in milliseconds),
recompute ranks and broadcast the next-turn update.  The 1-second
ticker it also starts is modelled separately (`hintTick`). -/
def startTurn (nowMs : Int) (words : List String) (l : Lobby) : Option (Lobby × List Out) :=
  match l.drawer with
  | none => none
  | some d =>
    some ({ l with
              players := recalculateRanks (setDrawerState l.players d),
              wordChoice := words,
              roundEndTime := nowMs + l.drawingTime * 1000 },
          [Out.promptWords d, Out.nextTurn])

/-- `advanceLobby` from lobby.go.  `nowMs` is `time.Now()` in
milliseconds and `words` is the result of the external
`GetRandomWords`.  Reading `Players[0]` or `Players[len-1]` of an empty
list is a Go panic (`none`). -/
def advanceLobby (nowMs : Int) (words : List String) (l : Lobby) : Option (Lobby × List Out) :=
  let ps := l.players.map resetForNextRound
  let l1 := { l with players := ps, currentDrawing := [] }
  match l1.drawer with
  | none =>
    match ps.head? with
    | none => none
    | some p0 => startTurn nowMs words { l1 with drawer := some p0.id, round := l1.round + 1 }
  | some d =>
    match ps.getLast? with
    | none => none
    | some plast =>
      if plast.id = d then
        if l1.round = l1.maxRounds then
          some ({ l1 with
                    drawer := none,
                    round := 0,
                    players := recalculateRanks ps },
                [Out.updatePlayers,
                 Out.publicSystem "Game over. Type !start again to start a new round."])
        else
          match ps.head? with
          | none => none
          | some p0 =>
            startTurn nowMs words { l1 with round := l1.round + 1, drawer := some p0.id }
      else
        match selectNextDrawer l1 with
        | none => none
        | some l2 => startTurn nowMs words l2

/-- `isAnyoneStillGuessing` from lobby.go. -/
def isAnyoneStillGuessing (l : Lobby) : Bool :=
  l.players.any fun p => p.state = PlayerState.Guessing

/-- Drawer bonus step at the top of `endRound`: when a drawer exists
and the guesser pool is positive, the drawer is credited
`int(pool / (len(players)-1) * 1.1)`.  Go computes this in `float64`;
it is modelled by exact arithmetic, `(pool * 11).tdiv (10 * (n - 1))`
(none of the checked claims depends on a positive bonus value).  With a
single player the Go float division yields `+Inf`, whose conversion to
`int` has an unspecified result: modelled as `none`. -/
def drawerBonusStep (l : Lobby) : Option Lobby :=
  match l.drawer with
  | none => some l
  | some d =>
    if 0 < l.scoreEarnedByGuessers then
      if l.players.length ≤ 1 then none
      else
        let bonus := (l.scoreEarnedByGuessers * 11).tdiv (10 * ((l.players.length : Int) - 1))
        some { l with
                 players := l.players.map fun p =>
                   if p.id = d then { p with lastScore := bonus, score := p.score + bonus }
                   else p }
    else some l

/-- Human-readable round-over message from `endRound`. -/
def roundOverMessage (l : Lobby) : String :=
  if l.currentWord = "" then "Round over. No word was chosen."
  else "Round over. The word was " ++ "'" ++ l.currentWord ++ "'"

/-- `endRound` from lobby.go: credit the drawer bonus, reset the
guesser pool, record the word as used, clear the current word and the
player-facing hints (the fully revealed `WordHintsShown` is left in
place), zero `LastScore` of everyone still guessing, broadcast the
round-over message and advance the lobby. -/
def endRound (nowMs : Int) (words : List String) (l : Lobby) : Option (Lobby × List Out) :=
  match drawerBonusStep l with
  | none => none
  | some l1 =>
    let l2 := { l1 with
                  scoreEarnedByGuessers := 0,
                  alreadyUsedWords := l1.alreadyUsedWords ++ [l1.currentWord],
                  currentWord := "",
                  wordHints := none,
                  players := l1.players.map fun p =>
                    if p.state = PlayerState.Guessing then { p with lastScore := 0 } else p }
    match advanceLobby nowMs words l2 with
    | none => none
    | some (l3, evs) => some (l3, [Out.publicSystem (roundOverMessage l)] ++ evs)

/-! ### Chat messages and guesses -/

/-- `sendMessageToAll` from lobby.go: the chat line every player
receives — emoji shorthands expanded by the external
`discordemojimap.Replace` (parameter `emojiRep`), then HTML-escaped;
the author name is HTML-escaped as well. -/
def sendMessageToAll (emojiRep : String → String) (sender : Player) (message : String) : Out :=
  Out.chat (escapeBytes sender.name) (escapeString (emojiRep message))

/-- `sendMessageToAllNonGuessing` from lobby.go. -/
def sendMessageToAllNonGuessing (emojiRep : String → String) (sender : Player) (message : String) : Out :=
  Out.nonGuessingChat (escapeBytes sender.name) (escapeString (emojiRep message))

/-- `handleMessage` from lobby.go.  `nowNs` is `time.Now()` in
nanoseconds (used for the score), `nowMs`/`words` feed a possible
`endRound`.  The sender is looked up by id; the handler is only ever
invoked for a member of the lobby. -/
def handleMessage (nowNs nowMs : Int) (words : List String) (emojiRep : String → String)
    (input : String) (senderId : String) (l : Lobby) : Option (Lobby × List Out) :=
  let trimmed := trimSpace input
  if trimmed = "" then some (l, [])
  else
    match l.players.find? (fun p => p.id = senderId) with
    | none => some (l, [])
    | some sender =>
      if l.currentWord = "" then some (l, [sendMessageToAll emojiRep sender trimmed])
      else
        match sender.state with
        | PlayerState.Drawing => some (l, [sendMessageToAllNonGuessing emojiRep sender trimmed])
        | PlayerState.Standby => some (l, [sendMessageToAllNonGuessing emojiRep sender trimmed])
        | PlayerState.Guessing =>
          let lowerCasedInput := lowerString trimmed
          let lowerCasedSearched := lowerString l.currentWord
          if lowerCasedSearched = lowerCasedInput then
            let secondsLeft := l.roundEndTime.tdiv 1000 - nowNs.tdiv 1000000000
            let pts : Int := scorePoints secondsLeft
            let l1 := { l with
                          players := l.players.map fun p =>
                            if p.id = senderId then
                              { p with lastScore := pts, score := p.score + pts,
                                       state := PlayerState.Standby }
                            else p,
                          scoreEarnedByGuessers := l.scoreEarnedByGuessers + pts }
            let ev0 : List Out := [Out.system senderId "You have correctly guessed the word."]
            if ¬isAnyoneStillGuessing l1 then
              match endRound nowMs words l1 with
              | none => none
              | some (l2, evs) => some (l2, ev0 ++ evs)
            else
              some ({ l1 with players := recalculateRanks l1.players },
                    ev0 ++ [Out.updateWordHintTo senderId, Out.correctGuess, Out.updatePlayers])
          else
            let closeEvs : List Out :=
              if lev lowerCasedInput.data lowerCasedSearched.data = 1 then
                [Out.system senderId ("'" ++ trimmed ++ "'" ++ " is very close.")]
              else []
            some (l, closeEvs ++ [sendMessageToAll emojiRep sender trimmed])

/-! ### Choosing a word -/

/-- The `choose-word` branch of `HandleEvent` from lobby.go: honored
only when the sender is the drawer, word choices are pending and the
index is between 0 and 2; then the word is fixed, the pending choices
cleared and both hint arrays built.  Indexing past the end of
`WordChoice` is a Go panic (`none`); every other combination falls
through with no mutation. -/
def handleChooseWord (senderId : String) (chosenIndex : Int) (l : Lobby) : Option (Lobby × List Out) :=
  if l.drawer = some senderId ∧ 0 < l.wordChoice.length ∧ 0 ≤ chosenIndex ∧ chosenIndex ≤ 2 then
    match l.wordChoice[chosenIndex.toNat]? with
    | none => none
    | some w =>
      let l1 := { l with currentWord := w, wordChoice := [],
                         wordHints := some (createWordHintFor w false),
                         wordHintsShown := some (createWordHintFor w true) }
      some (l1, (if l1.currentWord = "" then [] else [Out.updateWordHintAll]) ++
                  [Out.yourTurn senderId])
  else some (l, [])

/-! ### Vote kick -/

/-- Vote threshold from `handleKickEvent`: `n/2` for even `n`, else
`n/2 + 1`. -/
def kickThreshold (n : Nat) : Nat :=
  if n % 2 = 0 then n / 2 else n / 2 + 1

/-- The ballot-recording step of `handleKickEvent`
(`player.votedForKick[toKickID] = true` on the voter). -/
def kickBallot (voterId toKickID : String) (ps : List Player) : List Player :=
  ps.map fun p =>
    if p.id = voterId then { p with votedForKick := p.votedForKick ++ [toKickID] }
    else p

/-- The cleanup loop of `handleKickEvent`: it scans for any player who
voted for the target, but then deletes the entry from the **voter's**
ballot map (`delete(player.votedForKick, toKickID)`) and breaks — it
does not clear the other players' ballots. -/
def kickCleanupBallots (voterId toKickID : String) (ps1 : List Player) : List Player :=
  if ps1.any fun p => p.votedForKick.contains toKickID then
    ps1.map fun p =>
      if p.id = voterId then { p with votedForKick := p.votedForKick.erase toKickID }
      else p
  else ps1

/-- Score redaction when the kicked player was drawing: everyone loses
their `LastScore` again. -/
def kickRedact (ps : List Player) : List Player :=
  ps.map fun p => { p with score := p.score - p.lastScore, lastScore := 0 }

/-- Owner transfer on kick: when the kicked player owned the lobby,
the first remaining connected player (scanning forward, with a break)
becomes the owner; with nobody connected the owner reference is left
stale. -/
def kickOwner (owner : Option String) (toKickID : String) (ps5 : List Player) :
    Option String × List Out :=
  if owner = some toKickID then
    match ps5.find? (fun p => p.connected) with
    | some newOwner => (some newOwner.id, [Out.newOwner newOwner.id])
    | none => (owner, ([] : List Out))
  else (owner, ([] : List Out))

/-- The threshold-reached tail of `handleKickEvent`: cleanup of the
voter's ballot, optional score redaction, removal of the target,
rank recomputation, possible owner transfer, and an early round end
when the drawer was kicked or nobody is left guessing. -/
def finishKick (nowMs : Int) (words : List String) (l : Lobby)
    (voterId toKickID : String) (toKick : Nat) (ps1 : List Player)
    (voteKickCount votesNeeded : Nat) : Option (Lobby × List Out) :=
  let ps2 := kickCleanupBallots voterId toKickID ps1
  let drawerKicked := l.drawer = some toKickID
  let ps3 := if drawerKicked then kickRedact ps2 else ps2
  let pool := if drawerKicked then (0 : Int) else l.scoreEarnedByGuessers
  let ps5 := recalculateRanks (ps3.eraseIdx toKick)
  let ownerStep := kickOwner l.owner toKickID ps5
  let l1 := { l with players := ps5, owner := ownerStep.1, scoreEarnedByGuessers := pool }
  let evs := [Out.voteKickTally voteKickCount votesNeeded toKickID,
              Out.playerKicked toKickID] ++
             (if drawerKicked then [Out.drawerKickedNotice] else []) ++
             ownerStep.2 ++ [Out.updatePlayers]
  if drawerKicked ∨ ¬isAnyoneStillGuessing l1 then
    match endRound nowMs words l1 with
    | none => none
    | some (l2, e2) => some (l2, evs ++ e2)
  else some (l1, evs)

/-- `handleKickEvent` from lobby.go.  Self-votes and duplicate ballots
are ignored; otherwise the ballot is recorded and tallied, and on
reaching the threshold `finishKick` runs. -/
def handleKickEvent (nowMs : Int) (words : List String) (l : Lobby)
    (voterId toKickID : String) : Option (Lobby × List Out) :=
  if toKickID = voterId then some (l, [])
  else
    match l.players.find? (fun p => p.id = voterId) with
    | none => some (l, [])
    | some voter =>
      if voter.votedForKick.contains toKickID then some (l, [])
      else
        match l.players.findIdx? (fun p => p.id = toKickID) with
        | none => some (l, [])
        | some toKick =>
          let ps1 := kickBallot voterId toKickID l.players
          match ps1[toKick]? with
          | none => none
          | some _playerToKick =>
            let voteKickCount := (ps1.filter fun p => p.votedForKick.contains toKickID).length
            let votesNeeded := kickThreshold ps1.length
            if votesNeeded ≤ voteKickCount then
              finishKick nowMs words l voterId toKickID toKick ps1 voteKickCount votesNeeded
            else some (l, [Out.voteKickTally voteKickCount votesNeeded toKickID])

/-! ### The nick command -/

/-- `commandNick` from lobby.go, acting on the calling player.
`freshName` models the external `GeneratePlayerName()`.  With no
argument, or an argument that collapses to nothing, the name is reset;
otherwise the joined arguments are trimmed, HTML-escaped, and — when
longer than 30 bytes — truncated to their first **31** bytes (the Go
slice `newName[:31]`). -/
def commandNick (freshName : List UInt8) (args : List String) (caller : Player) : Player × List Out :=
  if args.length = 1 then
    ({ caller with name := freshName }, [Out.resetUsername caller.id, Out.updatePlayers])
  else
    let newName := escapeString (trimSpace (String.intercalate " " (args.drop 1)))
    if (strBytes newName).length = 0 then
      ({ caller with name := freshName }, [Out.resetUsername caller.id, Out.updatePlayers])
    else
      let nm := if 30 < (strBytes newName).length then (strBytes newName).take 31
                else strBytes newName
      ({ caller with name := nm },
       [Out.persistUsername caller.id nm, Out.updatePlayers])

/-! ### The hint-reveal ticker -/

/-- The retry loop inside the ticker of `advanceLobby`: draw random
indexes (`rand.Int() % len(WordHints)`, successive draws modelled by
the list `rands`) until one lands on a still-hidden slot, then reveal
that slot from the current word.  Running out of modelled draws is
`none` (in Go the loop just keeps spinning: it never terminates when
every slot is already revealed); `rand.Int() % 0` and indexing the word
out of range are Go panics (`none`). -/
def revealLoop (word : List Char) (hints : List WordHint) : List Nat → Option (List WordHint)
  | [] => none
  | r :: rest =>
    if h : 0 < hints.length then
      let i := r % hints.length
      let wh := hints.get ⟨i, Nat.mod_lt _ h⟩
      if wh.character = hiddenChar then
        match word[i]? with
        | some c => some (hints.set i { wh with character := c })
        | none => none
      else revealLoop word hints rest
    else none

/-- Ticker state of the goroutine started by `advanceLobby`:
`showNext` is `showNextHintInSeconds`, `hintsLeft` counts remaining
reveal opportunities. -/
structure HintClock where
  showNext : Int
  hintsLeft : Int
deriving DecidableEq

/-- Initial ticker state: `showNextHintInSeconds := DrawingTime / 3`,
`hintsLeft := 2`. -/
def initClock (drawingTime : Int) : HintClock :=
  { showNext := drawingTime.tdiv 3, hintsLeft := 2 }

/-- One 1-second tick of the hint portion of the ticker goroutine:
while reveal opportunities remain, count down; on reaching zero, reset
the countdown, consume one opportunity and — when a player-facing hint
array exists — run the reveal loop on it.  (The `RoundEndTime == 0`
check of the same loop body never fires, since `RoundEndTime` is set
to a non-zero epoch time and never cleared in lobby.go.) -/
def hintTick (drawingTime : Int) (word : List Char) (rands : List Nat)
    (st : Option (List WordHint) × HintClock) : Option (Option (List WordHint) × HintClock) :=
  let hints := st.1
  let c := st.2
  if 0 < c.hintsLeft then
    let s := c.showNext - 1
    if s = 0 then
      let c1 : HintClock := { showNext := drawingTime.tdiv 3, hintsLeft := c.hintsLeft - 1 }
      match hints with
      | some hs =>
        match revealLoop word hs rands with
        | some hs1 => some (some hs1, c1)
        | none => none
      | none => some (none, c1)
    else some (hints, { c with showNext := s })
  else some (hints, c)

/-- Run the ticker for a sequence of ticks, each with its own supply of
random draws. -/
def runTicks (drawingTime : Int) (word : List Char) :
    List (List Nat) → Option (List WordHint) × HintClock → Option (Option (List WordHint) × HintClock)
  | [], st => some st
  | rands :: rest, st =>
    match hintTick drawingTime word rands st with
    | none => none
    | some st1 => runTicks drawingTime word rest st1

/-- The effect of one reveal opportunity on the lobby (the ticker
mutates `lobby.WordHints` in place and reads `lobby.CurrentWord`). -/
def revealStep (rands : List Nat) (l : Lobby) : Option Lobby :=
  match l.wordHints with
  | none => some l
  | some hs =>
    match revealLoop l.currentWord.data hs rands with
    | none => none
    | some hs1 => some { l with wordHints := some hs1 }

/-! ### Reachable lobby states -/

/-- One application of a public operation of the lobby core. -/
inductive LobbyStep : Lobby → Lobby → Prop
  | chooseWord (senderId : String) (idx : Int) (l l' : Lobby) (evs : List Out) :
      handleChooseWord senderId idx l = some (l', evs) → LobbyStep l l'
  | advance (nowMs : Int) (words : List String) (l l' : Lobby) (evs : List Out) :
      advanceLobby nowMs words l = some (l', evs) → LobbyStep l l'
  | endR (nowMs : Int) (words : List String) (l l' : Lobby) (evs : List Out) :
      endRound nowMs words l = some (l', evs) → LobbyStep l l'
  | kick (nowMs : Int) (words : List String) (l : Lobby) (voterId toKickID : String)
      (l' : Lobby) (evs : List Out) :
      handleKickEvent nowMs words l voterId toKickID = some (l', evs) → LobbyStep l l'
  | message (nowNs nowMs : Int) (words : List String) (emojiRep : String → String)
      (input senderId : String) (l l' : Lobby) (evs : List Out) :
      handleMessage nowNs nowMs words emojiRep input senderId l = some (l', evs) → LobbyStep l l'
  | reveal (rands : List Nat) (l l' : Lobby) :
      revealStep rands l = some l' → LobbyStep l l'

/-- A freshly created lobby: no word, no hints, no pending choices,
round 0, no drawer (`createLobby`/`CreateLobby` set none of these). -/
def FreshLobby (l : Lobby) : Prop :=
  l.currentWord = "" ∧ l.wordHints = none ∧ l.wordHintsShown = none ∧
    l.wordChoice = [] ∧ l.round = 0 ∧ l.drawer = none

/-- Lobby states reachable from a fresh lobby through the public
operations. -/
inductive ReachableLobby : Lobby → Prop
  | init (l : Lobby) : FreshLobby l → ReachableLobby l
  | step (l l' : Lobby) : ReachableLobby l → LobbyStep l l' → ReachableLobby l'

/-! ### Generic list helpers -/

theorem find?_map_of_id (f : Player → Player) (hf : ∀ p, (f p).id = p.id) (i : String) :
    ∀ ps : List Player, (ps.map f).find? (fun p => p.id = i) = (ps.find? (fun p => p.id = i)).map f := by
  intro ps
  induction ps with
  | nil => rfl
  | cons p rest ih =>
    by_cases h : p.id = i
    · simp [List.find?_cons, hf, h]
    · simp [List.find?_cons, hf, h, ih]

theorem eraseIdx_map (f : Player → Player) :
    ∀ (l : List Player) (i : Nat), (l.map f).eraseIdx i = (l.eraseIdx i).map f := by
  intro l
  induction l with
  | nil => intro i; rfl
  | cons a t ih =>
    intro i
    cases i with
    | zero => rfl
    | succ j => simp [List.eraseIdx_cons_succ, ih]

theorem mem_eraseIdx_of_ne :
    ∀ (l : List Player) (i : Nat) (p : Player), p ∈ l →
      (∀ h : i < l.length, p ≠ l.get ⟨i, h⟩) → p ∈ l.eraseIdx i := by
  intro l
  induction l with
  | nil => intro i p hp _; cases hp
  | cons a t ih =>
    intro i p hp hne
    cases i with
    | zero =>
      rcases List.mem_cons.mp hp with rfl | hmem
      · exact absurd rfl (hne (by simp))
      · simpa [List.eraseIdx_cons_zero] using hmem
    | succ j =>
      rcases List.mem_cons.mp hp with rfl | hmem
      · simp [List.eraseIdx_cons_succ]
      · simp only [List.eraseIdx_cons_succ, List.mem_cons]
        exact Or.inr (ih j p hmem (fun h => hne (by simpa using Nat.succ_lt_succ h)))

/-! ### Shared concrete sample data -/

/-- A connected sample player with the given id and state. -/
def mkPlayer (i : String) (st : PlayerState) : Player :=
  { id := i, name := strBytes i, score := 0, lastScore := 0, rank := 1,
    state := st, connected := true, votedForKick := [] }

/-- A sample lobby holding the given players, with the given maximum
number of rounds and otherwise fresh state. -/
def mkLobby (ps : List Player) (mr : Int) : Lobby :=
  { players := ps, drawer := none, owner := none, round := 0, maxRounds := mr,
    drawingTime := 60, currentWord := "", wordChoice := [], wordHints := none,
    wordHintsShown := none, scoreEarnedByGuessers := 0, alreadyUsedWords := [],
    roundEndTime := 0, enableVotekick := true, currentDrawing := [] }

/-- Fixed word candidates handed to `advanceLobby` in concrete runs. -/
def rotWords : List String := ["w1", "w2", "w3"]

/-- Three-player lobby `[A, B, C]` with `MaxRounds = 1`, game not
started. -/
def rotL0 : Lobby :=
  mkLobby [mkPlayer "A" PlayerState.Guessing, mkPlayer "B" PlayerState.Guessing,
           mkPlayer "C" PlayerState.Guessing] 1

/-- State after the first `advanceLobby` on `rotL0`. -/
def rotL1 : Lobby := ((advanceLobby 0 rotWords rotL0).getD (rotL0, [])).1

/-- State after the second `advanceLobby`. -/
def rotL2 : Lobby := ((advanceLobby 0 rotWords rotL1).getD (rotL1, [])).1

/-- State after the third `advanceLobby`. -/
def rotL3 : Lobby := ((advanceLobby 0 rotWords rotL2).getD (rotL2, [])).1

/-- State after the fourth `advanceLobby`. -/
def rotL4 : Lobby := ((advanceLobby 0 rotWords rotL3).getD (rotL3, [])).1

/-- C3: from `NoGame` (Round 0, no drawer) with players `[A, B, C]` and
`MaxRounds = 1`, successive `advanceLobby` calls make A, then B, then C
the drawer (no repeat, no skip), and the fourth call ends the game:
drawer `none`, round reset to 0, everyone back to `Guessing`, and no
new round is started (round end time and word choices are not
renewed). -/
theorem advanceLobby_rotation_ABC :
    (advanceLobby 0 rotWords rotL0).isSome = true ∧
    rotL1.drawer = some "A" ∧ rotL1.round = 1 ∧
    (advanceLobby 0 rotWords rotL1).isSome = true ∧
    rotL2.drawer = some "B" ∧ rotL2.round = 1 ∧
    (advanceLobby 0 rotWords rotL2).isSome = true ∧
    rotL3.drawer = some "C" ∧ rotL3.round = 1 ∧
    (advanceLobby 0 rotWords rotL3).isSome = true ∧
    rotL4.drawer = none ∧ rotL4.round = 0 ∧
    (∀ p ∈ rotL4.players, p.state = PlayerState.Guessing) ∧
    rotL4.roundEndTime = rotL3.roundEndTime ∧
    rotL4.wordChoice = rotL3.wordChoice := by
  decide

/-- C10: `commandNick` with a single (command-only) argument resets the
name to a freshly generated one; otherwise the joined arguments are
trimmed and HTML-escaped, a name that collapses to nothing is also
reset, and an escaped name longer than 30 bytes is truncated to its
first 31 bytes (one more than the comparison limit). -/
theorem commandNick_spec (freshName : List UInt8) (args : List String) (caller : Player) :
    (args.length = 1 → (commandNick freshName args caller).1.name = freshName) ∧
    (args.length ≠ 1 →
      (commandNick freshName args caller).1.name =
        (let newName := escapeString (trimSpace (String.intercalate " " (args.drop 1)))
         if (strBytes newName).length = 0 then freshName
         else if 30 < (strBytes newName).length then (strBytes newName).take 31
         else strBytes newName)) ∧
    (∀ s : String, 30 < (strBytes s).length → ((strBytes s).take 31).length = 31) := by
  refine ⟨fun h => by simp [commandNick, h], fun h => ?_, fun s hs => ?_⟩
  · simp only [commandNick, if_neg h]
    split_ifs <;> rfl
  · simp [List.length_take]
    omega

/-- Arguments of a concrete `!nick` invocation: 30 ASCII letters
followed by a two-byte character, 32 bytes in total. -/
def cNickArgs : List String := ["nick", "aaaaaaaaaaaaaaaaaaaaaaaaaaaaaaé"]

/-- The trimmed, escaped form of the concrete nick argument (trimming
and escaping leave it unchanged). -/
def cNickName : String := "aaaaaaaaaaaaaaaaaaaaaaaaaaaaaaé"

/-- A concrete caller for the nick command. -/
def cNickCaller : Player := mkPlayer "N" PlayerState.Guessing

/-- Witness for `commandNick_spec`: the concrete 32-byte name is
truncated to its first 31 bytes, cutting the final two-byte character
in half (the last kept byte is the UTF-8 lead byte 195). -/
theorem commandNick_spec_witness :
    cNickArgs.length ≠ 1 ∧
    (commandNick [] cNickArgs cNickCaller).1.name = (strBytes cNickName).take 31 ∧
    ((strBytes cNickName).take 31).length = 31 ∧
    ((strBytes cNickName).take 31).getLast? = some 195 := by
  refine ⟨by decide, ?_, ?_, by decide⟩
  · have h := (commandNick_spec [] cNickArgs cNickCaller).2.1 (by decide)
    exact h.trans (by decide)
  · exact (commandNick_spec [] cNickArgs cNickCaller).2.2 cNickName (by decide)

/-- C9: a `choose-word` event mutates the lobby exactly when the sender
is the drawer, word choices are pending, and the index lies in
`[0, 2]`: then the current word becomes the chosen candidate, the
pending choices are cleared and both hint arrays are built; in every
other case the event is silently ignored with no state mutation.  The
hypothesis reflects that `WordChoice` always holds either 0 or 3
entries (`GetRandomWords` returns 3 words, and choosing clears the
list). -/
theorem handleChooseWord_spec (senderId : String) (idx : Int) (l : Lobby)
    (hchoice : l.wordChoice.length = 0 ∨ l.wordChoice.length = 3) :
    ((l.drawer = some senderId ∧ 0 < l.wordChoice.length ∧ 0 ≤ idx ∧ idx ≤ 2) →
      ∃ w, l.wordChoice[idx.toNat]? = some w ∧
        handleChooseWord senderId idx l =
          some ({ l with currentWord := w, wordChoice := [],
                         wordHints := some (createWordHintFor w false),
                         wordHintsShown := some (createWordHintFor w true) },
                (if w = "" then [] else [Out.updateWordHintAll]) ++ [Out.yourTurn senderId])) ∧
    (¬(l.drawer = some senderId ∧ 0 < l.wordChoice.length ∧ 0 ≤ idx ∧ idx ≤ 2) →
      handleChooseWord senderId idx l = some (l, [])) := by
  constructor
  · intro hcond
    have hlen : l.wordChoice.length = 3 := by
      rcases hchoice with h0 | h3
      · omega
      · exact h3
    have hidx : idx.toNat < l.wordChoice.length := by omega
    refine ⟨l.wordChoice[idx.toNat], List.getElem?_eq_getElem hidx, ?_⟩
    unfold handleChooseWord
    rw [if_pos hcond, List.getElem?_eq_getElem hidx]
  · intro hcond
    unfold handleChooseWord
    rw [if_neg hcond]

/-- Concrete lobby for the choose-word witness: drawer `A`, three
pending choices. -/
def cwLobby : Lobby :=
  { mkLobby [mkPlayer "A" PlayerState.Drawing, mkPlayer "B" PlayerState.Guessing] 1 with
      drawer := some "A", round := 1, wordChoice := ["cat", "dog", "fox"] }

/-- Witness for `handleChooseWord_spec`: drawer `A` picks index 1 of
three pending candidates, fixing the word `dog`, clearing the choices
and building both hint arrays. -/
theorem handleChooseWord_spec_witness :
    handleChooseWord "A" 1 cwLobby =
      some ({ cwLobby with currentWord := "dog", wordChoice := [],
                           wordHints := some (createWordHintFor "dog" false),
                           wordHintsShown := some (createWordHintFor "dog" true) },
            [Out.updateWordHintAll, Out.yourTurn "A"]) := by
  obtain ⟨w, hw, heq⟩ := (handleChooseWord_spec "A" 1 cwLobby (by decide)).1 (by decide)
  have hw2 : cwLobby.wordChoice[(1 : Int).toNat]? = some "dog" := by decide
  rw [hw2] at hw
  cases hw
  simpa using heq

/-- The last-connected-player reading of the fallback scan: scanning
forward while overwriting ends at the id of the final connected player
(or leaves the drawer unchanged when nobody is connected).  Requires
that the current drawer is not in the list (the situation in which
`selectNextDrawer` reaches the fallback) and that ids are distinct. -/
theorem fallbackScan_lastConnected :
    ∀ (ps : List Player) (d : Option String),
      (∀ p ∈ ps, some p.id ≠ d) → (ps.map Player.id).Nodup →
      fallbackScan d ps = ((ps.filter fun p => p.connected).getLast?).elim d (fun q => some q.id) := by
  intro ps
  induction ps with
  | nil => intro d _ _; rfl
  | cons p rest ih =>
    intro d hout hnd
    have hpd : ¬(some p.id = d) := hout p (List.mem_cons_self p rest)
    have hnd' : (rest.map Player.id).Nodup := (List.nodup_cons.mp (by simpa using hnd)).2
    have hpnotin : p.id ∉ rest.map Player.id := (List.nodup_cons.mp (by simpa using hnd)).1
    unfold fallbackScan
    rw [if_neg hpd]
    by_cases hpc : p.connected
    · rw [if_neg (by simpa using hpc)]
      have hrest : ∀ q ∈ rest, some q.id ≠ some p.id := by
        intro q hq hcontra
        exact hpnotin (by
          simp only [List.mem_map]
          exact ⟨q, hq, by simpa using hcontra⟩)
      rw [ih (some p.id) hrest hnd']
      rw [List.filter_cons_of_pos (by simpa using hpc)]
      cases hfl : rest.filter fun q => q.connected with
      | nil => simp
      | cons q t =>
        rw [List.getLast?_cons_cons]
        cases hgl : (q :: t).getLast? with
        | none => simp at hgl
        | some z => rfl
    · rw [if_pos (by simpa using hpc)]
      rw [ih d (fun q hq => hout q (List.mem_cons_of_mem p hq)) hnd']
      rw [List.filter_cons_of_neg (by simpa using hpc)]

/-- The id of the last connected player of the list, defaulting to `d`
when no player is connected. -/
def lastConnectedId (ps : List Player) (d : Option String) : Option String :=
  ((ps.filter fun p => p.connected).getLast?).elim d (fun q => some q.id)

/-- C2 (amended): when the current drawer is no longer in the player
list, `selectNextDrawer` falls through to the scan loop, which — having
no early exit after its assignment — ends up picking the **last**
connected player in list order (not the first); with no connected
player the drawer is left unchanged. -/
theorem selectNextDrawer_fallback (l : Lobby)
    (hout : ∀ p ∈ l.players, some p.id ≠ l.drawer)
    (hnd : (l.players.map Player.id).Nodup) :
    selectNextDrawer l = some { l with drawer := lastConnectedId l.players l.drawer } := by
  unfold lastConnectedId
  unfold selectNextDrawer
  have hidx : l.players.findIdx? (fun p => some p.id = l.drawer) = none := by
    rw [List.findIdx?_eq_none_iff]
    intro p hp
    simpa using hout p hp
  rw [hidx, fallbackScan_lastConnected l.players l.drawer hout hnd]

/-- Two connected players `[A, B]` whose drawer has been removed from
the list. -/
def cxFallbackLobby : Lobby :=
  { mkLobby [mkPlayer "A" PlayerState.Guessing, mkPlayer "B" PlayerState.Guessing] 1 with
      drawer := some "Z", round := 1 }

/-- Counterexample to C2 as stated: with connected players `[A, B]` and
a drawer that is no longer in the list, the fallback picks `B` — the
last connected player — while the first connected player in list order
is `A`. -/
theorem selectNextDrawer_fallback_cx :
    (selectNextDrawer cxFallbackLobby).map (fun l => l.drawer) = some (some "B") ∧
    (cxFallbackLobby.players.find? fun p => p.connected).map (fun p => p.id) = some "A" := by
  decide

/-- Witness for `selectNextDrawer_fallback` at the concrete two-player
lobby. -/
theorem selectNextDrawer_fallback_witness :
    selectNextDrawer cxFallbackLobby =
      some { cxFallbackLobby with drawer := lastConnectedId cxFallbackLobby.players cxFallbackLobby.drawer } ∧
    lastConnectedId cxFallbackLobby.players cxFallbackLobby.drawer = some "B" :=
  ⟨selectNextDrawer_fallback cxFallbackLobby (by decide) (by decide), by decide⟩

/-! ### Correct-guess scoring (C1) -/

set_option maxRecDepth 10000 in
/-- Concrete value of the score formula at 30 seconds left. -/
theorem scorePoints_thirty : scorePoints 30 = 167 := by decide

/-- `find?` by id through `recalculateRanks`. -/
theorem find?_recalc (ps : List Player) (i : String) :
    (recalculateRanks ps).find? (fun p => p.id = i) =
      (ps.find? (fun p => p.id = i)).map
        (fun a => { a with rank := (ps.filter fun b => a.score < b.score).length + 1 }) :=
  find?_map_of_id (fun a => { a with rank := (ps.filter fun b => a.score < b.score).length + 1 })
    (fun _ => rfl) i ps

/-- `find?` by id through the correct-guess score update. -/
theorem find?_scoreUpdate (ps : List Player) (i : String) (pts : Int) :
    (ps.map fun p =>
        if p.id = i then
          { p with lastScore := pts, score := p.score + pts, state := PlayerState.Standby }
        else p).find? (fun p => p.id = i) =
      (ps.find? (fun p => p.id = i)).map
        (fun p =>
          if p.id = i then
            { p with lastScore := pts, score := p.score + pts, state := PlayerState.Standby }
          else p) :=
  find?_map_of_id _ (fun p => by split <;> rfl) i ps

/-- C1 (amended): a correct guess by a `Guessing` player awards
`scorePoints secondsLeft` points with
`secondsLeft = roundEndTime/1000 - now/1e9` (integer division): the
value becomes the guesser's `LastScore`, is added to their `Score` and
to the per-round guesser pool, and the guesser moves to `Standby`.
With `roundEndTime = now*1000 + 30000` (30 seconds left) the award is
exactly **167** points (`ceil(30^1.3 * 2) = 167`, not 150 as the
original claim computes).  The someone-else-still-guessing hypothesis
keeps the round going, so the post-state pool is observable. -/
theorem handleMessage_correct_guess (nowNs nowMs : Int) (words : List String)
    (emojiRep : String → String) (input senderId : String) (l : Lobby) (sender : Player)
    (hfind : l.players.find? (fun p => p.id = senderId) = some sender)
    (hstate : sender.state = PlayerState.Guessing)
    (hword : ¬l.currentWord = "")
    (htrim : ¬trimSpace input = "")
    (hmatch : lowerString l.currentWord = lowerString (trimSpace input))
    (hstill : ∃ q ∈ l.players, q.id ≠ senderId ∧ q.state = PlayerState.Guessing) :
    ∃ l' evs, handleMessage nowNs nowMs words emojiRep input senderId l = some (l', evs) ∧
      (∃ p', l'.players.find? (fun p => p.id = senderId) = some p' ∧
        p'.lastScore = (scorePoints (l.roundEndTime.tdiv 1000 - nowNs.tdiv 1000000000) : Int) ∧
        p'.score = sender.score + (scorePoints (l.roundEndTime.tdiv 1000 - nowNs.tdiv 1000000000) : Int) ∧
        p'.state = PlayerState.Standby) ∧
      l'.scoreEarnedByGuessers =
        l.scoreEarnedByGuessers + (scorePoints (l.roundEndTime.tdiv 1000 - nowNs.tdiv 1000000000) : Int) ∧
      (l.roundEndTime = (nowNs.tdiv 1000000000) * 1000 + 30000 →
        scorePoints (l.roundEndTime.tdiv 1000 - nowNs.tdiv 1000000000) = 167) := by
  have hsid : sender.id = senderId := by
    have := List.find?_some hfind
    simpa using this
  obtain ⟨q, hq, hqid, hqstate⟩ := hstill
  simp only [handleMessage, if_neg htrim, hfind, if_neg hword, hstate, if_pos hmatch]
  have hany : isAnyoneStillGuessing
      { l with
          players := l.players.map fun p =>
            if p.id = senderId then
              { p with
                  lastScore := (scorePoints (l.roundEndTime.tdiv 1000 - nowNs.tdiv 1000000000) : Int),
                  score := p.score + (scorePoints (l.roundEndTime.tdiv 1000 - nowNs.tdiv 1000000000) : Int),
                  state := PlayerState.Standby }
            else p,
          scoreEarnedByGuessers :=
            l.scoreEarnedByGuessers + (scorePoints (l.roundEndTime.tdiv 1000 - nowNs.tdiv 1000000000) : Int) }
      = true := by
    unfold isAnyoneStillGuessing
    rw [List.any_eq_true]
    refine ⟨q, List.mem_map.mpr ⟨q, hq, by simp [hqid]⟩, by simp [hqstate]⟩
  rw [if_neg (not_not_intro hany)]
  refine ⟨_, _, rfl, ?_, ?_, ?_⟩
  · rw [find?_recalc, find?_scoreUpdate, hfind]
    refine ⟨_, rfl, ?_, ?_, ?_⟩ <;> simp [hsid]
  · rfl
  · intro h
    have h30 : l.roundEndTime.tdiv 1000 - nowNs.tdiv 1000000000 = 30 := by
      rw [h]
      have hmul : (nowNs.tdiv 1000000000) * 1000 + 30000 = ((nowNs.tdiv 1000000000) + 30) * 1000 := by
        ring
      rw [hmul, Int.mul_tdiv_cancel _ (by norm_num)]
      ring
    rw [h30, scorePoints_thirty]

/-- Concrete guessing scenario: word `cat`, 30 seconds left
(`roundEndTime = 30000`, now = 0), guesser `A`, second guesser `B`
still at work, drawer `D`. -/
def cxScoreLobby : Lobby :=
  { mkLobby [mkPlayer "A" PlayerState.Guessing, mkPlayer "B" PlayerState.Guessing,
             mkPlayer "D" PlayerState.Drawing] 1 with
      drawer := some "D", round := 1, currentWord := "cat",
      wordHints := some (createWordHintFor "cat" false),
      wordHintsShown := some (createWordHintFor "cat" true),
      roundEndTime := 30000 }

set_option maxRecDepth 10000 in
/-- Counterexample to C1 as stated: with `roundEndTime = now*1000 +
30000` (30 seconds left) a correct guess awards 167 points, not 150
(`ceil(30^1.3 * 2) = ceil(166.44) = 167`). -/
theorem handleMessage_score_not_150_cx :
    ((handleMessage 0 0 rotWords id "cat" "A" cxScoreLobby).map
        (fun r => (r.1.players.find? fun p => p.id = "A").map fun p => p.lastScore)) =
      some (some 167) ∧
    ((handleMessage 0 0 rotWords id "cat" "A" cxScoreLobby).map
        (fun r => (r.1.players.find? fun p => p.id = "A").map fun p => p.lastScore)) ≠
      some (some 150) := by
  constructor <;> decide

set_option maxRecDepth 10000 in
/-- Witness for `handleMessage_correct_guess` at the concrete 30-second
scenario. -/
theorem handleMessage_correct_guess_witness :
    ∃ l' evs, handleMessage 0 0 rotWords id "cat" "A" cxScoreLobby = some (l', evs) ∧
      (∃ p', l'.players.find? (fun p => p.id = "A") = some p' ∧
        p'.lastScore =
          (scorePoints (cxScoreLobby.roundEndTime.tdiv 1000 - (0 : Int).tdiv 1000000000) : Int) ∧
        p'.score = (mkPlayer "A" PlayerState.Guessing).score +
          (scorePoints (cxScoreLobby.roundEndTime.tdiv 1000 - (0 : Int).tdiv 1000000000) : Int) ∧
        p'.state = PlayerState.Standby) ∧
      l'.scoreEarnedByGuessers = cxScoreLobby.scoreEarnedByGuessers +
        (scorePoints (cxScoreLobby.roundEndTime.tdiv 1000 - (0 : Int).tdiv 1000000000) : Int) ∧
      (cxScoreLobby.roundEndTime = ((0 : Int).tdiv 1000000000) * 1000 + 30000 →
        scorePoints (cxScoreLobby.roundEndTime.tdiv 1000 - (0 : Int).tdiv 1000000000) = 167) :=
  handleMessage_correct_guess 0 0 rotWords id "cat" "A" cxScoreLobby
    (mkPlayer "A" PlayerState.Guessing) (by decide) (by decide) (by decide) (by decide)
    (by decide) ⟨mkPlayer "B" PlayerState.Guessing, by decide⟩

/-! ### Which events a round transition emits (for C8) -/

/-- `startTurn` emits exactly a prompt-words unicast and the next-turn
update. -/
theorem startTurn_evs (nowMs : Int) (words : List String) (l l' : Lobby) (evs : List Out)
    (h : startTurn nowMs words l = some (l', evs)) :
    ∃ d, evs = [Out.promptWords d, Out.nextTurn] := by
  unfold startTurn at h
  split at h
  · exact Option.noConfusion h
  · cases h
    exact ⟨_, rfl⟩

/-- `advanceLobby` emits either a new-turn pair or the game-over
pair — never a chat line. -/
theorem advanceLobby_evs (nowMs : Int) (words : List String) (l l' : Lobby) (evs : List Out)
    (h : advanceLobby nowMs words l = some (l', evs)) :
    (∃ d, evs = [Out.promptWords d, Out.nextTurn]) ∨
    evs = [Out.updatePlayers,
           Out.publicSystem "Game over. Type !start again to start a new round."] := by
  simp only [advanceLobby] at h
  split at h
  · split at h
    · exact Option.noConfusion h
    · exact Or.inl (startTurn_evs _ _ _ _ _ h)
  · split at h
    · exact Option.noConfusion h
    · split at h
      · split at h
        · cases h; exact Or.inr rfl
        · split at h
          · exact Option.noConfusion h
          · exact Or.inl (startTurn_evs _ _ _ _ _ h)
      · split at h
        · exact Option.noConfusion h
        · exact Or.inl (startTurn_evs _ _ _ _ _ h)

/-- `endRound` emits the round-over system message followed by
`advanceLobby`'s events — never a chat line. -/
theorem endRound_evs (nowMs : Int) (words : List String) (l l' : Lobby) (evs : List Out)
    (h : endRound nowMs words l = some (l', evs)) :
    ∃ tail, evs = Out.publicSystem (roundOverMessage l) :: tail ∧
      ((∃ d, tail = [Out.promptWords d, Out.nextTurn]) ∨
       tail = [Out.updatePlayers,
               Out.publicSystem "Game over. Type !start again to start a new round."]) := by
  simp only [endRound] at h
  split at h
  · exact Option.noConfusion h
  · split at h
    · exact Option.noConfusion h
    · next l3 evs3 heq =>
      cases h
      exact ⟨evs3, rfl, advanceLobby_evs _ _ _ _ _ heq⟩

/-- C8 (amended): while a word is set, for a message from a `Guessing`
player: a trimmed message equal to the word case-insensitively is never
rebroadcast as a normal chat line (whatever else the guess triggers);
a non-blank trimmed message at case-insensitive edit distance exactly 1
draws the private very-close notice and is still broadcast as a normal
chat line.  (A message that trims to nothing is dropped before any
comparison — see the counterexample for the original claim.) -/
theorem handleMessage_guess_messages (nowNs nowMs : Int) (words : List String)
    (emojiRep : String → String) (input senderId : String) (l : Lobby) (sender : Player)
    (hfind : l.players.find? (fun p => p.id = senderId) = some sender)
    (hstate : sender.state = PlayerState.Guessing)
    (hword : ¬l.currentWord = "") :
    (lowerString l.currentWord = lowerString (trimSpace input) →
      ∀ l' evs, handleMessage nowNs nowMs words emojiRep input senderId l = some (l', evs) →
        ∀ a c, Out.chat a c ∉ evs) ∧
    (¬trimSpace input = "" →
      ¬lowerString l.currentWord = lowerString (trimSpace input) →
      lev (lowerString (trimSpace input)).data (lowerString l.currentWord).data = 1 →
      handleMessage nowNs nowMs words emojiRep input senderId l =
        some (l, [Out.system senderId ("'" ++ trimSpace input ++ "'" ++ " is very close."),
                  sendMessageToAll emojiRep sender (trimSpace input)])) := by
  constructor
  · intro hmatch l' evs h a c
    by_cases htr : trimSpace input = ""
    · simp only [handleMessage, if_pos htr] at h
      cases h
      simp
    · simp only [handleMessage, if_neg htr, hfind, if_neg hword, hstate, if_pos hmatch] at h
      split at h
      · split at h
        · exact Option.noConfusion h
        · next l3 evs3 heq =>
          cases h
          obtain ⟨tail, rfl, hrest⟩ := endRound_evs _ _ _ _ _ heq
          rcases hrest with ⟨d, rfl⟩ | rfl <;> simp
      · cases h
        simp
  · intro htrim hne hlev
    simp only [handleMessage, if_neg htrim, hfind, if_neg hword, hstate, if_neg hne,
      if_pos hlev, List.singleton_append]

/-- One-letter secret word `a` with guesser `A` still guessing. -/
def cxOneLetterLobby : Lobby :=
  { mkLobby [mkPlayer "A" PlayerState.Guessing, mkPlayer "B" PlayerState.Guessing,
             mkPlayer "D" PlayerState.Drawing] 1 with
      drawer := some "D", round := 1, currentWord := "a",
      wordHints := some (createWordHintFor "a" false),
      wordHintsShown := some (createWordHintFor "a" true),
      roundEndTime := 30000 }

/-- Counterexample to C8 as stated: the whitespace message from a
`Guessing` player has case-insensitive edit distance exactly 1 from the
one-letter secret word `a`, yet the handler drops it before any
comparison: no very-close notice and no broadcast at all. -/
theorem handleMessage_blank_near_miss_cx :
    lev (lowerString " ").data (lowerString cxOneLetterLobby.currentWord).data = 1 ∧
    handleMessage 0 0 rotWords id " " "A" cxOneLetterLobby = some (cxOneLetterLobby, []) := by
  constructor <;> decide

/-- Witness for `handleMessage_guess_messages`: guessing `cap` against
the word `cat` draws the very-close notice and the normal chat
broadcast. -/
theorem handleMessage_guess_messages_witness :
    handleMessage 0 0 rotWords id "cap" "A" cxScoreLobby =
      some (cxScoreLobby,
        [Out.system "A" ("'" ++ trimSpace "cap" ++ "'" ++ " is very close."),
         sendMessageToAll id (mkPlayer "A" PlayerState.Guessing) (trimSpace "cap")]) :=
  (handleMessage_guess_messages 0 0 rotWords id "cap" "A" cxScoreLobby
    (mkPlayer "A" PlayerState.Guessing) (by decide) (by decide) (by decide)).2
    (by decide) (by decide) (by decide)

/-! ### State preserved across round transitions (for C4, C5, C6) -/

/-- Identity, score and last score of a player — the data that round
transitions must not alter. -/
def playerSig (p : Player) : String × Int × Int := (p.id, p.score, p.lastScore)

/-- Identity and vote-kick ballots of a player. -/
def ballotSig (p : Player) : String × List String := (p.id, p.votedForKick)

/-- `startTurn` keeps the pool, word, hints, used words, and every
player's id/score/last score; ballots are carried over unchanged from
its input players. -/
theorem startTurn_state (nowMs : Int) (words : List String) (l l' : Lobby) (evs : List Out)
    (h : startTurn nowMs words l = some (l', evs)) :
    l'.scoreEarnedByGuessers = l.scoreEarnedByGuessers ∧
    l'.currentWord = l.currentWord ∧ l'.wordHints = l.wordHints ∧
    l'.wordHintsShown = l.wordHintsShown ∧
    l'.alreadyUsedWords = l.alreadyUsedWords ∧
    l'.players.map playerSig = l.players.map playerSig ∧
    (∀ p ∈ l'.players, ∃ q ∈ l.players, p.votedForKick = q.votedForKick) := by
  unfold startTurn at h
  split at h
  · exact Option.noConfusion h
  · cases h
    refine ⟨rfl, rfl, rfl, rfl, rfl, ?_, ?_⟩
    · unfold recalculateRanks setDrawerState
      rw [List.map_map, List.map_map]
      refine List.map_congr_left fun a _ => ?_
      dsimp [playerSig, Function.comp]
      split <;> rfl
    · intro p hp
      unfold recalculateRanks setDrawerState at hp
      rcases List.mem_map.mp hp with ⟨a, ha, rfl⟩
      rcases List.mem_map.mp ha with ⟨b, hb, rfl⟩
      refine ⟨b, hb, ?_⟩
      dsimp
      split <;> rfl

/-- `selectNextDrawer` only reassigns the drawer. -/
theorem selectNextDrawer_state (l l2 : Lobby) (h : selectNextDrawer l = some l2) :
    l2.players = l.players ∧ l2.scoreEarnedByGuessers = l.scoreEarnedByGuessers ∧
    l2.currentWord = l.currentWord ∧ l2.wordHints = l.wordHints ∧
    l2.wordHintsShown = l.wordHintsShown ∧ l2.alreadyUsedWords = l.alreadyUsedWords := by
  unfold selectNextDrawer at h
  split at h
  · split at h
    · cases h; exact ⟨rfl, rfl, rfl, rfl, rfl, rfl⟩
    · exact Option.noConfusion h
  · cases h; exact ⟨rfl, rfl, rfl, rfl, rfl, rfl⟩

/-- `advanceLobby` keeps the pool, word, both hint arrays and the used
words, never changes any player's id/score/last score, and leaves every
surviving player with an empty ballot set. -/
theorem advanceLobby_state (nowMs : Int) (words : List String) (l l' : Lobby) (evs : List Out)
    (h : advanceLobby nowMs words l = some (l', evs)) :
    l'.scoreEarnedByGuessers = l.scoreEarnedByGuessers ∧
    l'.currentWord = l.currentWord ∧ l'.wordHints = l.wordHints ∧
    l'.wordHintsShown = l.wordHintsShown ∧
    l'.alreadyUsedWords = l.alreadyUsedWords ∧
    l'.players.map playerSig = l.players.map playerSig ∧
    (∀ p ∈ l'.players, p.votedForKick = []) := by
  have hreset_sig : (l.players.map resetForNextRound).map playerSig = l.players.map playerSig := by
    rw [List.map_map]
    exact List.map_congr_left fun a _ => rfl
  have hreset_ballots : ∀ p ∈ l.players.map resetForNextRound, p.votedForKick = [] := by
    intro p hp
    rcases List.mem_map.mp hp with ⟨a, _, rfl⟩
    rfl
  simp only [advanceLobby] at h
  split at h
  · split at h
    · exact Option.noConfusion h
    · obtain ⟨h1, h2, h3, h4, h5, h6, h7⟩ := startTurn_state _ _ _ _ _ h
      refine ⟨h1, h2, h3, h4, h5, h6.trans hreset_sig, fun p hp => ?_⟩
      obtain ⟨q, hq, heq⟩ := h7 p hp
      exact heq.trans (hreset_ballots q hq)
  · split at h
    · exact Option.noConfusion h
    · split at h
      · split at h
        · cases h
          refine ⟨rfl, rfl, rfl, rfl, rfl, ?_, ?_⟩
          · unfold recalculateRanks
            rw [List.map_map]
            exact (List.map_congr_left fun a _ => rfl).trans hreset_sig
          · intro p hp
            unfold recalculateRanks at hp
            rcases List.mem_map.mp hp with ⟨a, ha, rfl⟩
            exact hreset_ballots a ha
        · split at h
          · exact Option.noConfusion h
          · obtain ⟨h1, h2, h3, h4, h5, h6, h7⟩ := startTurn_state _ _ _ _ _ h
            refine ⟨h1, h2, h3, h4, h5, h6.trans hreset_sig, fun p hp => ?_⟩
            obtain ⟨q, hq, heq⟩ := h7 p hp
            exact heq.trans (hreset_ballots q hq)
      · split at h
        · exact Option.noConfusion h
        · next l2 heq2 =>
          obtain ⟨h1, h2, h3, h4, h5, h6, h7⟩ := startTurn_state _ _ _ _ _ h
          obtain ⟨g1, g2, g3, g4, g5, g6⟩ := selectNextDrawer_state _ _ heq2
          refine ⟨h1.trans g2, h2.trans g3, h3.trans g4, h4.trans g5, h5.trans g6,
                  (h6.trans (by rw [g1])).trans hreset_sig, fun p hp => ?_⟩
          obtain ⟨q, hq, heq⟩ := h7 p hp
          rw [g1] at hq
          exact heq.trans (hreset_ballots q hq)

/-- `endRound` on a void round (non-positive pool, every last score
already zero): no drawer bonus is credited, the pool ends at zero, the
word is cleared and recorded as used, the player-facing hints are
dropped, and no player's id/score/last score changes. -/
theorem endRound_void (nowMs : Int) (words : List String) (l l' : Lobby) (evs : List Out)
    (hpool : l.scoreEarnedByGuessers ≤ 0)
    (h0 : ∀ p ∈ l.players, p.lastScore = 0)
    (h : endRound nowMs words l = some (l', evs)) :
    l'.scoreEarnedByGuessers = 0 ∧ l'.currentWord = "" ∧ l'.wordHints = none ∧
    l'.alreadyUsedWords = l.alreadyUsedWords ++ [l.currentWord] ∧
    l'.players.map playerSig = l.players.map playerSig := by
  have hb : drawerBonusStep l = some l := by
    unfold drawerBonusStep
    cases hdw : l.drawer with
    | none => rfl
    | some d =>
      dsimp only
      rw [if_neg (by omega)]
  rw [endRound, hb] at h
  dsimp only at h
  split at h
  · exact Option.noConfusion h
  · next l3 evs3 heq =>
    cases h
    obtain ⟨a1, a2, a3, a4, a5, a6, a7⟩ := advanceLobby_state _ _ _ _ _ heq
    refine ⟨a1, a2, a3, a5, ?_⟩
    refine a6.trans ?_
    dsimp only
    rw [List.map_map]
    refine List.map_congr_left fun a ha => ?_
    dsimp [playerSig, Function.comp]
    split
    · rw [h0 a ha]
    · rfl

/-- C5 (amended): ballots are cleared for every player on every
`advanceLobby` invocation; but a successful kick does **not** clear the
remaining players' ballot sets — the cleanup loop only deletes the
final voter's just-cast ballot for the kicked target, so every
remaining player keeps exactly the ballots they had before the kick
(full clearing after a kick happens only indirectly, when the kick
triggers round-over handling). -/
theorem voteKick_ballot_lifecycle :
    (∀ (nowMs : Int) (words : List String) (l l' : Lobby) (evs : List Out),
       advanceLobby nowMs words l = some (l', evs) → ∀ p ∈ l'.players, p.votedForKick = []) ∧
    (∀ (nowMs : Int) (words : List String) (l : Lobby) (voterId toKickID : String)
       (voter : Player) (i : Nat) (l' : Lobby) (evs : List Out),
       toKickID ≠ voterId →
       l.players.find? (fun p => p.id = voterId) = some voter →
       voter.votedForKick.contains toKickID = false →
       l.players.findIdx? (fun p => p.id = toKickID) = some i →
       i < l.players.length →
       (∀ p ∈ l.players, p.id = voterId → toKickID ∉ p.votedForKick) →
       ¬l.drawer = some toKickID →
       (∀ h : i < l.players.length, (l.players.get ⟨i, h⟩).id = toKickID) →
       (∃ q ∈ l.players, q.id ≠ toKickID ∧ q.state = PlayerState.Guessing) →
       handleKickEvent nowMs words l voterId toKickID = some (l', evs) →
       Out.playerKicked toKickID ∈ evs →
       l'.players.map ballotSig = (l.players.eraseIdx i).map ballotSig) := by
  constructor
  · intro nowMs words l l' evs h
    exact (advanceLobby_state nowMs words l l' evs h).2.2.2.2.2.2
  · intro nowMs words l voterId toKickID voter i l' evs hne hfind hnotv hidx hi hvnot hdr
      hptk hstill hrun hmark
    have hvid : voter.id = voterId := by simpa using List.find?_some hfind
    have hvmem : voter ∈ l.players := List.mem_of_find?_eq_some hfind
    have hilen : i < (kickBallot voterId toKickID l.players).length := by
      simpa [kickBallot] using hi
    have hanyp : (kickBallot voterId toKickID l.players).any
        (fun p => p.votedForKick.contains toKickID) = true := by
      rw [kickBallot, List.any_eq_true]
      refine ⟨_, List.mem_map.mpr ⟨voter, hvmem, rfl⟩, ?_⟩
      rw [if_pos hvid]
      simp
    simp only [handleKickEvent, if_neg hne, hfind, hnotv, hidx,
      List.getElem?_eq_getElem hilen, Bool.false_eq_true, if_false] at hrun
    split at hrun
    · simp only [finishKick, if_neg hdr] at hrun
      have hguessPS : ((kickCleanupBallots voterId toKickID
          (kickBallot voterId toKickID l.players)).eraseIdx i).any
          (fun p => p.state = PlayerState.Guessing) = true := by
        rw [kickCleanupBallots, if_pos hanyp, eraseIdx_map, kickBallot, eraseIdx_map,
          List.any_eq_true]
        obtain ⟨q, hq, hqid, hqstate⟩ := hstill
        have hqer : q ∈ l.players.eraseIdx i := by
          refine mem_eraseIdx_of_ne l.players i q hq fun h heq => ?_
          exact hqid (heq ▸ hptk h)
        refine ⟨_, List.mem_map.mpr ⟨_, List.mem_map.mpr ⟨q, hqer, rfl⟩, rfl⟩, ?_⟩
        by_cases hq2 : q.id = voterId <;> simp [hq2, hqstate]
      split at hrun
      · next hcond =>
        rcases hcond with hcon | hcon
        · exact absurd hcon hdr
        · exfalso
          apply hcon
          unfold isAnyoneStillGuessing recalculateRanks
          dsimp only
          rw [List.any_map]
          exact hguessPS
      · cases hrun
        dsimp only
        rw [kickCleanupBallots, if_pos hanyp, eraseIdx_map, kickBallot, eraseIdx_map]
        unfold recalculateRanks
        rw [List.map_map, List.map_map, List.map_map]
        refine List.map_congr_left fun p hp => ?_
        have hpmem : p ∈ l.players := List.mem_of_mem_eraseIdx hp
        dsimp [ballotSig, Function.comp]
        by_cases hpid : p.id = voterId
        · rw [if_pos hpid]
          dsimp only
          rw [if_pos hpid]
          rw [List.erase_append_right _ (by
            intro hmem
            exact hvnot p hpmem hpid (by simpa using hmem))]
          simp
        · rw [if_neg hpid, if_neg hpid]
    · cases hrun
      simp at hmark

/-- Four-player lobby in mid-round: `A` (guessing) already voted to
kick `C`; `D` is drawing and owns nothing; `B` is on standby. -/
def cxKickLobby : Lobby :=
  { mkLobby [{ mkPlayer "A" PlayerState.Guessing with votedForKick := ["C"] },
             mkPlayer "B" PlayerState.Standby, mkPlayer "C" PlayerState.Guessing,
             mkPlayer "D" PlayerState.Drawing] 2 with
      drawer := some "D", owner := some "A", round := 1, currentWord := "cat",
      roundEndTime := 30000 }

/-- Counterexample to C5 as stated: `B`'s ballot lets the kick of `C`
succeed (threshold 2 of 4), yet afterwards `A` still holds a ballot —
the ballot sets of the remaining players are not cleared. -/
theorem kick_does_not_clear_ballots_cx :
    (handleKickEvent 0 rotWords cxKickLobby "B" "C").map
        (fun r => ((r.1.players.find? fun p => p.id = "A").map fun p => p.votedForKick,
                   r.2.contains (Out.playerKicked "C"),
                   r.1.players.all fun p => p.votedForKick.isEmpty)) =
      some (some ["C"], true, false) := by
  decide

/-- Witness for `voteKick_ballot_lifecycle`: ballots cleared by a
concrete `advanceLobby`, and ballots carried over unchanged by a
concrete successful kick. -/
theorem voteKick_ballot_lifecycle_witness :
    (∀ p ∈ rotL1.players, p.votedForKick = []) ∧
    ((handleKickEvent 0 rotWords cxKickLobby "B" "C").getD (cxKickLobby, [])).1.players.map ballotSig =
      (cxKickLobby.players.eraseIdx 2).map ballotSig := by
  constructor
  · exact voteKick_ballot_lifecycle.1 0 rotWords rotL0 rotL1
      ((advanceLobby 0 rotWords rotL0).getD (rotL0, [])).2 (by decide)
  · exact voteKick_ballot_lifecycle.2 0 rotWords cxKickLobby "B" "C"
      (mkPlayer "B" PlayerState.Standby) 2
      ((handleKickEvent 0 rotWords cxKickLobby "B" "C").getD (cxKickLobby, [])).1
      ((handleKickEvent 0 rotWords cxKickLobby "B" "C").getD (cxKickLobby, [])).2
      (by decide) (by decide) (by decide) (by decide) (by decide) (by decide) (by decide)
      (fun _ => rfl)
      ⟨{ mkPlayer "A" PlayerState.Guessing with votedForKick := ["C"] }, by decide⟩
      (by decide) (by decide)

/-- C4: when a successful vote-kick removes the current drawer, every
remaining player's score is rolled back by their last score and their
last score zeroed, the guesser pool ends at zero, and round-over
handling runs immediately (the word is cleared and recorded as used);
the pool being zero, the kicked drawer is credited no bonus in that
round-over pass. -/
theorem kick_drawer_voids_round (nowMs : Int) (words : List String) (l : Lobby)
    (voterId toKickID : String) (voter : Player) (i : Nat) (l' : Lobby) (evs : List Out)
    (hne : toKickID ≠ voterId)
    (hfind : l.players.find? (fun p => p.id = voterId) = some voter)
    (hnotv : voter.votedForKick.contains toKickID = false)
    (hidx : l.players.findIdx? (fun p => p.id = toKickID) = some i)
    (hi : i < l.players.length)
    (hdrawer : l.drawer = some toKickID)
    (hrun : handleKickEvent nowMs words l voterId toKickID = some (l', evs))
    (hmark : Out.playerKicked toKickID ∈ evs) :
    l'.players.map playerSig =
      (l.players.eraseIdx i).map (fun p => (p.id, p.score - p.lastScore, (0 : Int))) ∧
    l'.scoreEarnedByGuessers = 0 ∧
    l'.currentWord = "" ∧
    l'.alreadyUsedWords = l.alreadyUsedWords ++ [l.currentWord] := by
  have hilen : i < (kickBallot voterId toKickID l.players).length := by
    simpa [kickBallot] using hi
  have hclean : ∀ ps : List Player,
      ((kickCleanupBallots voterId toKickID ps).eraseIdx i).map
        (fun p => (p.id, p.score - p.lastScore, (0 : Int))) =
      (ps.eraseIdx i).map (fun p => (p.id, p.score - p.lastScore, (0 : Int))) := by
    intro ps
    unfold kickCleanupBallots
    split
    · rw [eraseIdx_map, List.map_map]
      refine List.map_congr_left fun p _ => ?_
      by_cases hpid : p.id = voterId <;> simp [Function.comp, hpid]
    · rfl
  have hball : ((kickBallot voterId toKickID l.players).eraseIdx i).map
      (fun p => (p.id, p.score - p.lastScore, (0 : Int))) =
      (l.players.eraseIdx i).map (fun p => (p.id, p.score - p.lastScore, (0 : Int))) := by
    rw [kickBallot, eraseIdx_map, List.map_map]
    refine List.map_congr_left fun p _ => ?_
    by_cases hpid : p.id = voterId <;> simp [Function.comp, hpid]
  simp only [handleKickEvent, if_neg hne, hfind, hnotv, hidx,
    List.getElem?_eq_getElem hilen, Bool.false_eq_true, if_false] at hrun
  split at hrun
  · simp only [finishKick, if_pos hdrawer] at hrun
    rw [if_pos (Or.inl hdrawer)] at hrun
    split at hrun
    · exact Option.noConfusion hrun
    · next l2 e2 heq =>
      cases hrun
      have h0 : ∀ p ∈ (recalculateRanks ((kickRedact (kickCleanupBallots voterId toKickID
          (kickBallot voterId toKickID l.players))).eraseIdx i)), p.lastScore = 0 := by
        intro p hp
        unfold recalculateRanks at hp
        rcases List.mem_map.mp hp with ⟨a, ha, rfl⟩
        have ha2 := List.mem_of_mem_eraseIdx ha
        unfold kickRedact at ha2
        rcases List.mem_map.mp ha2 with ⟨b, _, rfl⟩
        rfl
      have hv := endRound_void nowMs words _ _ _ (le_of_eq rfl) h0 heq
      refine ⟨?_, hv.1, hv.2.1, hv.2.2.2.1⟩
      refine hv.2.2.2.2.trans ?_
      show (recalculateRanks ((kickRedact (kickCleanupBallots voterId toKickID
        (kickBallot voterId toKickID l.players))).eraseIdx i)).map playerSig = _
      unfold recalculateRanks kickRedact
      rw [eraseIdx_map, List.map_map, List.map_map]
      refine (List.map_congr_left fun p _ => ?_).trans ((hclean _).trans hball)
      rfl
  · cases hrun
    simp at hmark

/-- A player who already guessed this round (167 points) and voted to
kick the drawer `D`. -/
def cxRichA : Player :=
  { mkPlayer "A" PlayerState.Standby with
      score := 167, lastScore := 167, votedForKick := ["D"] }

/-- Mid-round lobby for the drawer-kick witness, with `cxRichA`. -/
def cxDrawerKickLobby : Lobby :=
  { mkLobby [cxRichA,
             mkPlayer "B" PlayerState.Guessing,
             mkPlayer "D" PlayerState.Drawing] 2 with
      drawer := some "D", owner := some "A", round := 1, currentWord := "cat",
      wordHints := some (createWordHintFor "cat" false),
      wordHintsShown := some (createWordHintFor "cat" true),
      roundEndTime := 30000, scoreEarnedByGuessers := 167 }

/-- Witness for `kick_drawer_voids_round`: `B`'s ballot kicks the
drawer `D` (2 of 3), `A`'s 167 points are rolled back, the pool is
zeroed and the round ends. -/
theorem kick_drawer_voids_round_witness :
    ((handleKickEvent 0 rotWords cxDrawerKickLobby "B" "D").getD
        (cxDrawerKickLobby, [])).1.players.map playerSig =
      (cxDrawerKickLobby.players.eraseIdx 2).map
        (fun p => (p.id, p.score - p.lastScore, (0 : Int))) ∧
    ((handleKickEvent 0 rotWords cxDrawerKickLobby "B" "D").getD
        (cxDrawerKickLobby, [])).1.scoreEarnedByGuessers = 0 ∧
    ((handleKickEvent 0 rotWords cxDrawerKickLobby "B" "D").getD
        (cxDrawerKickLobby, [])).1.currentWord = "" ∧
    ((handleKickEvent 0 rotWords cxDrawerKickLobby "B" "D").getD
        (cxDrawerKickLobby, [])).1.alreadyUsedWords =
      cxDrawerKickLobby.alreadyUsedWords ++ [cxDrawerKickLobby.currentWord] :=
  kick_drawer_voids_round 0 rotWords cxDrawerKickLobby "B" "D"
    (mkPlayer "B" PlayerState.Guessing) 2
    ((handleKickEvent 0 rotWords cxDrawerKickLobby "B" "D").getD (cxDrawerKickLobby, [])).1
    ((handleKickEvent 0 rotWords cxDrawerKickLobby "B" "D").getD (cxDrawerKickLobby, [])).2
    (by decide) (by decide) (by decide) (by decide) (by decide) (by decide)
    (by decide) (by decide)

/-! ### The word-hint length invariant (C6) -/

/-- `createWordHintFor` builds one slot per rune. -/
theorem createWordHintFor_length (word : String) (showAll : Bool) :
    (createWordHintFor word showAll).length = word.data.length := by
  simp [createWordHintFor]

/-- A successful reveal keeps the hint array's length. -/
theorem revealLoop_length (word : List Char) :
    ∀ (rands : List Nat) (hs hs' : List WordHint),
      revealLoop word hs rands = some hs' → hs'.length = hs.length := by
  intro rands
  induction rands with
  | nil => intro hs hs' h; exact Option.noConfusion h
  | cons r rest ih =>
    intro hs hs' h
    simp only [revealLoop] at h
    split at h
    · split at h
      · split at h
        · cases h; simp
        · exact Option.noConfusion h
      · exact ih hs hs' h
    · exact Option.noConfusion h

/-- `handleChooseWord` either leaves word and hints alone or installs a
freshly built hint array for the new word. -/
theorem handleChooseWord_hints (senderId : String) (idx : Int) (l l' : Lobby) (evs : List Out)
    (h : handleChooseWord senderId idx l = some (l', evs)) :
    (l'.wordHints = l.wordHints ∧ l'.currentWord = l.currentWord) ∨
    (∃ w, l'.currentWord = w ∧ l'.wordHints = some (createWordHintFor w false)) := by
  unfold handleChooseWord at h
  split at h
  · split at h
    · exact Option.noConfusion h
    · cases h; exact Or.inr ⟨_, rfl, rfl⟩
  · cases h; exact Or.inl ⟨rfl, rfl⟩

/-- `endRound` always drops the player-facing hint array. -/
theorem endRound_hints (nowMs : Int) (words : List String) (l l' : Lobby) (evs : List Out)
    (h : endRound nowMs words l = some (l', evs)) : l'.wordHints = none := by
  simp only [endRound] at h
  split at h
  · exact Option.noConfusion h
  · split at h
    · exact Option.noConfusion h
    · next l3 evs3 heq =>
      cases h
      exact (advanceLobby_state _ _ _ _ _ heq).2.2.1

/-- `handleMessage` leaves word and player-facing hints alone unless it
ends the round (which drops the hints). -/
theorem handleMessage_hints (nowNs nowMs : Int) (words : List String)
    (emojiRep : String → String) (input senderId : String) (l l' : Lobby) (evs : List Out)
    (h : handleMessage nowNs nowMs words emojiRep input senderId l = some (l', evs)) :
    (l'.wordHints = l.wordHints ∧ l'.currentWord = l.currentWord) ∨ l'.wordHints = none := by
  simp only [handleMessage] at h
  split at h
  · cases h; exact Or.inl ⟨rfl, rfl⟩
  · split at h
    · cases h; exact Or.inl ⟨rfl, rfl⟩
    · split at h
      · cases h; exact Or.inl ⟨rfl, rfl⟩
      · split at h
        · cases h; exact Or.inl ⟨rfl, rfl⟩
        · cases h; exact Or.inl ⟨rfl, rfl⟩
        · split at h
          · split at h
            · split at h
              · exact Option.noConfusion h
              · next l3 evs3 heq =>
                cases h
                exact Or.inr (endRound_hints _ _ _ _ _ heq)
            · cases h; exact Or.inl ⟨rfl, rfl⟩
          · cases h; exact Or.inl ⟨rfl, rfl⟩

/-- `handleKickEvent` leaves word and player-facing hints alone unless
it triggers round-over handling (which drops the hints). -/
theorem handleKickEvent_hints (nowMs : Int) (words : List String) (l : Lobby)
    (voterId toKickID : String) (l' : Lobby) (evs : List Out)
    (h : handleKickEvent nowMs words l voterId toKickID = some (l', evs)) :
    (l'.wordHints = l.wordHints ∧ l'.currentWord = l.currentWord) ∨ l'.wordHints = none := by
  simp only [handleKickEvent] at h
  split at h
  · cases h; exact Or.inl ⟨rfl, rfl⟩
  · split at h
    · cases h; exact Or.inl ⟨rfl, rfl⟩
    · split at h
      · cases h; exact Or.inl ⟨rfl, rfl⟩
      · split at h
        · cases h; exact Or.inl ⟨rfl, rfl⟩
        · split at h
          · exact Option.noConfusion h
          · split at h
            · simp only [finishKick] at h
              split at h
              · next hdrK =>
                rw [if_pos (Or.inl hdrK)] at h
                split at h
                · exact Option.noConfusion h
                · next l3 evs3 heq =>
                  cases h
                  exact Or.inr (endRound_hints _ _ _ _ _ heq)
              · split at h
                · split at h
                  · exact Option.noConfusion h
                  · next l3 evs3 heq =>
                    cases h
                    exact Or.inr (endRound_hints _ _ _ _ _ heq)
                · cases h; exact Or.inl ⟨rfl, rfl⟩
            · cases h; exact Or.inl ⟨rfl, rfl⟩

/-- `revealStep` keeps the word and only rewrites hint slots in place,
preserving the array's length. -/
theorem revealStep_hints (rands : List Nat) (l l' : Lobby)
    (h : revealStep rands l = some l') :
    l'.currentWord = l.currentWord ∧
    (l'.wordHints = l.wordHints ∨
      ∃ hs hs', l.wordHints = some hs ∧ l'.wordHints = some hs' ∧ hs'.length = hs.length) := by
  unfold revealStep at h
  split at h
  · cases h; exact ⟨rfl, Or.inl rfl⟩
  · next hs hhs =>
    split at h
    · exact Option.noConfusion h
    · next hs' heq =>
      cases h
      exact ⟨rfl, Or.inr ⟨hs, hs', hhs, rfl, revealLoop_length _ _ _ _ heq⟩⟩

/-- C6 (amended): in every lobby state reachable through the public
operations, the **player-facing** hint array, when present, has length
equal to the character count of the current secret word.  (The fully
revealed `WordHintsShown` array does not satisfy this: `endRound`
leaves it in place while clearing the word — see the counterexample.) -/
theorem reachable_wordHints_length (l : Lobby) (h : ReachableLobby l) :
    ∀ hs, l.wordHints = some hs → hs.length = l.currentWord.data.length := by
  induction h with
  | init l hf =>
    intro hs hhs
    rw [hf.2.1] at hhs
    exact Option.noConfusion hhs
  | step l l' hr hstep ih =>
    intro hs hhs
    cases hstep with
    | chooseWord senderId idx _ _ evs heq =>
      rcases handleChooseWord_hints senderId idx l l' evs heq with ⟨h1, h2⟩ | ⟨w, hw, hh⟩
      · rw [h2]; exact ih hs (h1 ▸ hhs)
      · rw [hh] at hhs
        cases hhs
        rw [hw]
        exact createWordHintFor_length w false
    | advance nowMs words _ _ evs heq =>
      obtain ⟨_, h2, h3, _, _, _, _⟩ := advanceLobby_state nowMs words l l' evs heq
      rw [h2]
      exact ih hs (h3 ▸ hhs)
    | endR nowMs words _ _ evs heq =>
      rw [endRound_hints nowMs words l l' evs heq] at hhs
      exact Option.noConfusion hhs
    | kick nowMs words _ voterId toKickID _ evs heq =>
      rcases handleKickEvent_hints nowMs words l voterId toKickID l' evs heq with ⟨h1, h2⟩ | h1
      · rw [h2]; exact ih hs (h1 ▸ hhs)
      · rw [h1] at hhs; exact Option.noConfusion hhs
    | message nowNs nowMs words emojiRep input senderId _ _ evs heq =>
      rcases handleMessage_hints nowNs nowMs words emojiRep input senderId l l' evs heq with
        ⟨h1, h2⟩ | h1
      · rw [h2]; exact ih hs (h1 ▸ hhs)
      · rw [h1] at hhs; exact Option.noConfusion hhs
    | reveal rands _ _ heq =>
      obtain ⟨h1, h2⟩ := revealStep_hints rands l l' heq
      rw [h1]
      rcases h2 with h2 | ⟨hs0, hs1, hl0, hl1, hlen⟩
      · exact ih hs (h2 ▸ hhs)
      · rw [hl1] at hhs
        cases hhs
        rw [hlen]
        exact ih hs0 hl0

/-- Fresh two-player lobby for the hint-length trace. -/
def cxC6L0 : Lobby :=
  mkLobby [mkPlayer "A" PlayerState.Guessing, mkPlayer "B" PlayerState.Guessing] 2

/-- After starting the game (`A` draws). -/
def cxC6L1 : Lobby := ((advanceLobby 0 rotWords cxC6L0).getD (cxC6L0, [])).1

/-- Events of the first `advanceLobby`. -/
def cxC6E1 : List Out := ((advanceLobby 0 rotWords cxC6L0).getD (cxC6L0, [])).2

/-- After `A` chooses the word `w1` (both hint arrays have length 2). -/
def cxC6L2 : Lobby := ((handleChooseWord "A" 0 cxC6L1).getD (cxC6L1, [])).1

/-- Events of the word choice. -/
def cxC6E2 : List Out := ((handleChooseWord "A" 0 cxC6L1).getD (cxC6L1, [])).2

/-- After the round ends: the word is cleared but `WordHintsShown`
survives with length 2. -/
def cxC6L3 : Lobby := ((endRound 0 rotWords cxC6L2).getD (cxC6L2, [])).1

/-- Events of the round end. -/
def cxC6E3 : List Out := ((endRound 0 rotWords cxC6L2).getD (cxC6L2, [])).2

/-- Counterexample to C6 as stated: a reachable state (start the game,
choose the two-letter word `w1`, end the round) in which the fully
revealed hint array is still present with length 2 while the current
secret word is empty (character count 0). -/
theorem stale_shown_hints_cx :
    ReachableLobby cxC6L3 ∧
    cxC6L3.wordHintsShown.map List.length = some 2 ∧
    cxC6L3.currentWord.data.length = 0 := by
  refine ⟨?_, by decide, by decide⟩
  refine ReachableLobby.step cxC6L2 cxC6L3 (ReachableLobby.step cxC6L1 cxC6L2
    (ReachableLobby.step cxC6L0 cxC6L1 (ReachableLobby.init cxC6L0 ⟨rfl, rfl, rfl, rfl, rfl, rfl⟩)
      (LobbyStep.advance 0 rotWords cxC6L0 cxC6L1 cxC6E1 (by decide)))
    (LobbyStep.chooseWord "A" 0 cxC6L1 cxC6L2 cxC6E2 (by decide)))
    (LobbyStep.endR 0 rotWords cxC6L2 cxC6L3 cxC6E3 (by decide))

/-- Witness for `reachable_wordHints_length`: in the reachable state
right after the word `w1` is chosen, the player-facing hint array has
length 2, the character count of `w1`. -/
theorem reachable_wordHints_length_witness :
    (createWordHintFor "w1" false).length = cxC6L2.currentWord.data.length :=
  reachable_wordHints_length cxC6L2
    (ReachableLobby.step cxC6L1 cxC6L2
      (ReachableLobby.step cxC6L0 cxC6L1 (ReachableLobby.init cxC6L0 ⟨rfl, rfl, rfl, rfl, rfl, rfl⟩)
        (LobbyStep.advance 0 rotWords cxC6L0 cxC6L1 cxC6E1 (by decide)))
      (LobbyStep.chooseWord "A" 0 cxC6L1 cxC6L2 cxC6E2 (by decide)))
    (createWordHintFor "w1" false) (by decide)

/-! ### Progressive hint reveal (C7) -/

/-- Number of still-hidden slots. -/
def hiddenCount (hs : List WordHint) : Nat :=
  hs.countP fun wh => wh.character = hiddenChar

/-- Number of revealed slots. -/
def revealedCount (hs : List WordHint) : Nat :=
  hs.countP fun wh => ¬wh.character = hiddenChar

/-- A fresh hint array is entirely hidden. -/
theorem hiddenCount_create (word : String) :
    hiddenCount (createWordHintFor word false) = word.data.length := by
  unfold hiddenCount createWordHintFor
  rw [List.countP_map]
  exact List.countP_eq_length.mpr fun a _ => by simp [Function.comp]

/-- A fresh hint array has no revealed slot. -/
theorem revealedCount_create (word : String) :
    revealedCount (createWordHintFor word false) = 0 := by
  unfold revealedCount createWordHintFor
  rw [List.countP_map, List.countP_eq_zero]
  intro a _
  simp [Function.comp]

/-- A completed reveal picks one still-hidden slot and sets exactly
that slot to the corresponding character of the word, leaving every
other slot (in particular every already revealed one) unchanged. -/
theorem revealLoop_spec (word : List Char) :
    ∀ (rands : List Nat) (hs hs' : List WordHint),
      revealLoop word hs rands = some hs' →
      ∃ (j : Nat) (h : j < hs.length) (c : Char),
        (hs.get ⟨j, h⟩).character = hiddenChar ∧ word[j]? = some c ∧
        hs' = hs.set j { character := c, underline := (hs.get ⟨j, h⟩).underline } := by
  intro rands
  induction rands with
  | nil => intro hs hs' h; exact Option.noConfusion h
  | cons r rest ih =>
    intro hs hs' h
    simp only [revealLoop] at h
    split at h
    · next hlen =>
      split at h
      · next hhid =>
        split at h
        · next c hc =>
          cases h
          exact ⟨r % hs.length, Nat.mod_lt _ hlen, c, hhid, hc, rfl⟩
        · exact Option.noConfusion h
      · exact ih hs hs' h
    · exact Option.noConfusion h

/-- When some hidden slot's index occurs among the draws (and the word
covers the array), the reveal loop completes. -/
theorem revealLoop_success (word : List Char) :
    ∀ (rands : List Nat) (hs : List WordHint),
      (∃ j, j ∈ rands ∧ ∃ h : j < hs.length, (hs.get ⟨j, h⟩).character = hiddenChar) →
      hs.length ≤ word.length →
      ∃ hs', revealLoop word hs rands = some hs' := by
  intro rands
  induction rands with
  | nil =>
    intro hs ⟨j, hj, _⟩ _
    exact absurd hj (List.not_mem_nil j)
  | cons r rest ih =>
    intro hs ⟨j, hj, hlt, hhid⟩ hle
    have hlen : 0 < hs.length := Nat.lt_of_le_of_lt (Nat.zero_le j) hlt
    simp only [revealLoop]
    rw [dif_pos hlen]
    by_cases hcase : (hs.get ⟨r % hs.length, Nat.mod_lt _ hlen⟩).character = hiddenChar
    · rw [if_pos hcase]
      have hwlt : r % hs.length < word.length := Nat.lt_of_lt_of_le (Nat.mod_lt _ hlen) hle
      rw [List.getElem?_eq_getElem hwlt]
      exact ⟨_, rfl⟩
    · rw [if_neg hcase]
      refine ih hs ⟨j, ?_, hlt, hhid⟩ hle
      rcases List.mem_cons.mp hj with rfl | hmem
      · exfalso
        have hfin : (⟨j % hs.length, Nat.mod_lt _ hlen⟩ : Fin hs.length) = ⟨j, hlt⟩ :=
          Fin.ext (Nat.mod_eq_of_lt hlt)
        rw [hfin] at hcase
        exact hcase hhid
      · exact hmem

/-- When every slot is already revealed the loop never completes,
however many draws it is given (in Go it spins forever). -/
theorem revealLoop_stuck (word : List Char) :
    ∀ (rands : List Nat) (hs : List WordHint),
      (∀ (j : Nat) (h : j < hs.length), (hs.get ⟨j, h⟩).character ≠ hiddenChar) →
      revealLoop word hs rands = none := by
  intro rands
  induction rands with
  | nil => intro hs _; rfl
  | cons r rest ih =>
    intro hs hall
    simp only [revealLoop]
    by_cases hlen : 0 < hs.length
    · rw [dif_pos hlen, if_neg (hall _ (Nat.mod_lt _ hlen))]
      exact ih hs hall
    · rw [dif_neg hlen]

/-- Revealing one hidden slot moves one unit from the hidden count to
the revealed count. -/
theorem counts_after_reveal (hs : List WordHint) (j : Nat) (h : j < hs.length) (wh : WordHint)
    (hhid : hs[j].character = hiddenChar) (hc : wh.character ≠ hiddenChar) :
    hiddenCount (hs.set j wh) = hiddenCount hs - 1 ∧
    revealedCount (hs.set j wh) = revealedCount hs + 1 ∧
    0 < hiddenCount hs := by
  have hpos : 0 < hiddenCount hs := by
    unfold hiddenCount
    rw [List.countP_pos_iff]
    exact ⟨hs[j], List.getElem_mem h, by simp [hhid]⟩
  refine ⟨?_, ?_, hpos⟩
  · unfold hiddenCount
    rw [List.countP_set _ _ _ _ h]
    simp [hhid, hc]
  · unfold revealedCount
    rw [List.countP_set _ _ _ _ h]
    simp [hhid, hc]

/-- Running the ticker over a concatenation runs the pieces in
sequence. -/
theorem runTicks_append (dt : Int) (w : List Char) :
    ∀ (a b : List (List Nat)) (st : Option (List WordHint) × HintClock),
      runTicks dt w (a ++ b) st =
        match runTicks dt w a st with
        | none => none
        | some st1 => runTicks dt w b st1 := by
  intro a
  induction a with
  | nil => intro b st; rfl
  | cons x xs ih =>
    intro b st
    simp only [List.cons_append, runTicks]
    cases hx : hintTick dt w x st with
    | none => rfl
    | some st1 => exact ih b st1

/-- With no reveal opportunities left, ticks change nothing. -/
theorem runTicks_inert (dt : Int) (w : List Char) :
    ∀ (ticks : List (List Nat)) (st : Option (List WordHint) × HintClock),
      st.2.hintsLeft ≤ 0 → runTicks dt w ticks st = some st := by
  intro ticks
  induction ticks with
  | nil => intro st _; rfl
  | cons x xs ih =>
    intro st hst
    have hx : hintTick dt w x st = some st := by
      simp only [hintTick]
      rw [if_neg (by omega)]
    simp only [runTicks, hx]
    exact ih st hst

/-- One hint phase of the ticker: with `hl > 0` opportunities left and
the countdown equal to the number of remaining ticks, the ticker counts
down, consumes exactly one reveal opportunity on its last tick (the
draws covering every index of the word), reveals exactly one hidden
slot and resets the countdown to `DrawingTime / 3`. -/
theorem runTicks_phase (dt : Int) (word : List Char)
    (hword : ∀ c ∈ word, c ≠ hiddenChar) :
    ∀ (ticks : List (List Nat)) (hs : List WordHint) (hl : Int),
      0 < hl →
      ticks ≠ [] →
      (∀ rs ∈ ticks, ∀ j < word.length, j ∈ rs) →
      0 < hiddenCount hs →
      hs.length = word.length →
      ∃ hs', runTicks dt word ticks (some hs, ⟨(ticks.length : Int), hl⟩) =
          some (some hs', ⟨dt.tdiv 3, hl - 1⟩) ∧
        hs'.length = hs.length ∧
        hiddenCount hs' = hiddenCount hs - 1 ∧
        revealedCount hs' = revealedCount hs + 1 := by
  intro ticks
  induction ticks with
  | nil => intro hs hl _ hne _ _ _; exact absurd rfl hne
  | cons rs rest ih =>
    intro hs hl hhl _ hgood hhid hlen
    by_cases hrest : rest = []
    · subst hrest
      have hex : ∃ j, j ∈ rs ∧ ∃ h : j < hs.length, (hs.get ⟨j, h⟩).character = hiddenChar := by
        have hhid' : 0 < hs.countP (fun wh => wh.character = hiddenChar) := hhid
        obtain ⟨a, ha, hpa⟩ := List.countP_pos_iff.mp hhid'
        obtain ⟨j, hj, hja⟩ := List.getElem_of_mem ha
        refine ⟨j, hgood rs (List.mem_cons_self rs []) j (by rw [← hlen]; exact hj), hj, ?_⟩
        simp only [List.get_eq_getElem, hja]
        simpa using hpa
      obtain ⟨hs', hrl⟩ := revealLoop_success word rs hs hex (le_of_eq hlen)
      obtain ⟨j', hj', c, hhid', hcw, hset⟩ := revealLoop_spec word rs hs hs' hrl
      subst hset
      have hcmem : c ∈ word := by
        obtain ⟨hw, hwe⟩ := List.getElem?_eq_some.mp hcw
        exact hwe ▸ List.getElem_mem hw
      have hc0 : c ≠ hiddenChar := hword c hcmem
      have hhidg : hs[j'].character = hiddenChar := by
        simpa [List.get_eq_getElem] using hhid'
      obtain ⟨hcnt1, hcnt2, _⟩ := counts_after_reveal hs j' hj'
        ⟨c, (hs.get ⟨j', hj'⟩).underline⟩ hhidg hc0
      refine ⟨hs.set j' ⟨c, (hs.get ⟨j', hj'⟩).underline⟩, ?_, by simp, hcnt1, hcnt2⟩
      have hct : hintTick dt word rs
          (some hs, ⟨((rs :: ([] : List (List Nat))).length : Int), hl⟩) =
          some (some (hs.set j' ⟨c, (hs.get ⟨j', hj'⟩).underline⟩), ⟨dt.tdiv 3, hl - 1⟩) := by
        simp only [hintTick]
        rw [if_pos hhl, if_pos (by simp), hrl]
      simp only [runTicks, hct]
    · have hrl1 : 1 ≤ rest.length := List.length_pos.mpr hrest
      have hs0 : ((rs :: rest).length : Int) - 1 = (rest.length : Int) := by
        simp only [List.length_cons]
        push_cast
        ring
      have hne : ¬(((rs :: rest).length : Int) - 1 = 0) := by
        rw [hs0]
        intro h
        omega
      have hct : hintTick dt word rs (some hs, ⟨((rs :: rest).length : Int), hl⟩) =
          some (some hs, ⟨(rest.length : Int), hl⟩) := by
        simp only [hintTick]
        rw [if_pos hhl, if_neg hne, hs0]
      simp only [runTicks, hct]
      exact ih hs hl hhl hrest (fun rs' h' => hgood rs' (List.mem_cons_of_mem _ h')) hhid hlen

/-- C7 (amended): over a word none of whose characters is the hidden
marker, (a) every hint-reveal opportunity that completes reveals
exactly one slot that was still hidden (hidden count down one,
revealed count up one) and leaves every already-revealed slot
untouched; (b) when every slot is already revealed the reveal loop
never completes, whatever draws it is given (the Go loop spins
forever, so for a one-letter word the second opportunity hangs instead
of revealing `min(2, wordLength) = 1` slots and stopping); (c) over a
full uninterrupted round — `DrawingTime/3 = d ≥ 1`, word length at
least 2, `2*d` one-second ticks whose draw supplies cover every index —
exactly 2 slots end up revealed. -/
theorem hint_reveal_round (dt : Int) (word : String) (d : Nat)
    (ticks : List (List Nat))
    (hd : dt.tdiv 3 = (d : Int)) (hd1 : 1 ≤ d)
    (hword2 : 2 ≤ word.data.length)
    (hnoz : hiddenChar ∉ word.data)
    (hcov : ∀ rs ∈ ticks, ∀ j < word.data.length, j ∈ rs)
    (hticks : ticks.length = 2 * d) :
    (∀ (rands : List Nat) (hs hs' : List WordHint),
        revealLoop word.data hs rands = some hs' →
        hiddenCount hs' = hiddenCount hs - 1 ∧
        revealedCount hs' = revealedCount hs + 1 ∧
        ∀ (j0 : Nat), (∀ hj : j0 < hs.length, (hs.get ⟨j0, hj⟩).character ≠ hiddenChar) →
          hs'[j0]? = hs[j0]?) ∧
    (∀ (rands : List Nat) (hs : List WordHint),
        (∀ (j : Nat) (hj : j < hs.length), (hs.get ⟨j, hj⟩).character ≠ hiddenChar) →
        revealLoop word.data hs rands = none) ∧
    (∃ hs', runTicks dt word.data ticks
          (some (createWordHintFor word false), initClock dt) =
          some (some hs', ⟨dt.tdiv 3, 0⟩) ∧
        hs'.length = word.data.length ∧
        revealedCount hs' = 2 ∧
        hiddenCount hs' = word.data.length - 2) := by
  have hcword : ∀ c ∈ word.data, c ≠ hiddenChar := fun c hc he => hnoz (he ▸ hc)
  refine ⟨?_, ?_, ?_⟩
  · intro rands hs hs' hloop
    obtain ⟨j, hj, c, hhid, hcw, hset⟩ := revealLoop_spec word.data rands hs hs' hloop
    have hcmem : c ∈ word.data := by
      obtain ⟨hw, hwe⟩ := List.getElem?_eq_some.mp hcw
      exact hwe ▸ List.getElem_mem hw
    have hc0 : c ≠ hiddenChar := hcword c hcmem
    subst hset
    obtain ⟨h1, h2, _⟩ := counts_after_reveal hs j hj ⟨c, (hs.get ⟨j, hj⟩).underline⟩
      (by simpa [List.get_eq_getElem] using hhid) hc0
    refine ⟨h1, h2, ?_⟩
    intro j0 hrev
    have hne : j ≠ j0 := by
      intro he
      subst he
      exact hrev hj hhid
    exact List.getElem?_set_ne hne
  · exact fun rands hs hall => revealLoop_stuck word.data rands hs hall
  · have hl1 : (ticks.take d).length = d := by rw [List.length_take]; omega
    have hl2 : (ticks.drop d).length = d := by rw [List.length_drop]; omega
    have hne1 : ticks.take d ≠ [] := by
      intro h
      rw [h] at hl1
      simp at hl1
      omega
    have hne2 : ticks.drop d ≠ [] := by
      intro h
      rw [h] at hl2
      simp at hl2
      omega
    obtain ⟨hs1, hrun1, hlen1, hhid1, hrev1⟩ := runTicks_phase dt word.data hcword
      (ticks.take d) (createWordHintFor word false) 2 (by norm_num) hne1
      (fun rs h => hcov rs (List.mem_of_mem_take h))
      (by rw [hiddenCount_create]; omega)
      (createWordHintFor_length word false)
    rw [hl1] at hrun1
    norm_num at hrun1
    obtain ⟨hs2, hrun2, hlen2, hhid2, hrev2⟩ := runTicks_phase dt word.data hcword
      (ticks.drop d) hs1 1 (by norm_num) hne2
      (fun rs h => hcov rs (List.mem_of_mem_drop h))
      (by rw [hhid1, hiddenCount_create]; omega)
      (by rw [hlen1, createWordHintFor_length])
    rw [hl2] at hrun2
    norm_num at hrun2
    refine ⟨hs2, ?_, ?_, ?_, ?_⟩
    · have hsplit : ticks = ticks.take d ++ ticks.drop d := (List.take_append_drop d ticks).symm
      rw [hsplit, runTicks_append]
      have hc1 : initClock dt = ⟨(d : Int), 2⟩ := by
        rw [initClock, hd]
      rw [hc1]
      simp only [hrun1]
      have hc2 : (⟨dt.tdiv 3, (1 : Int)⟩ : HintClock) = ⟨(d : Int), 1⟩ := by
        rw [hd]
      rw [hc2, hrun2]
    · rw [hlen2, hlen1, createWordHintFor_length]
    · rw [hrev2, hrev1, revealedCount_create]
    · rw [hhid2, hhid1, hiddenCount_create]
      omega

/-- Counterexample to C7 as stated: every opportunity terminates.  For
the one-letter word `a` the first opportunity reveals the only slot,
but the second opportunity's reveal loop never completes — here it
fails even with 100 draws, and `revealLoop_stuck` shows no draw supply
can ever make it complete (the Go `for` loop at lobby.go:497-506 spins
forever) — so a one-letter round never reaches a stopped state with
`min(2, 1) = 1` reveals. -/
theorem hint_reveal_stuck_cx :
    revealLoop "a".data (createWordHintFor "a" false) [0] =
      some [{ character := 'a', underline := true }] ∧
    revealLoop "a".data [{ character := 'a', underline := true }]
      (List.replicate 100 0) = none := by
  constructor
  · decide
  · decide

/-- The amended C7 at a concrete full round: `DrawingTime = 3` (so
`d = 1`), word `ab`, two ticks whose draws cover both indexes; exactly
2 slots end up revealed. -/
theorem hint_reveal_round_witness :
    (3 : Int).tdiv 3 = ((1 : Nat) : Int) ∧
    (∃ hs', runTicks 3 "ab".data [[0, 1], [0, 1]]
          (some (createWordHintFor "ab" false), initClock 3) =
          some (some hs', ⟨(3 : Int).tdiv 3, 0⟩) ∧
        hs'.length = "ab".data.length ∧
        revealedCount hs' = 2 ∧
        hiddenCount hs' = "ab".data.length - 2) :=
  ⟨by decide,
    (hint_reveal_round 3 "ab" 1 [[0, 1], [0, 1]] (by decide) (by decide) (by decide)
      (by decide) (by decide) (by decide)).2.2⟩
